import Mathlib

/-!
# Verification of the secp256k1 core of `bitcoin_reuni`

A shallow embedding, in Lean 4, of the canonical secp256k1 implementation of the
repository (the `src/secp256k1` module: `s256_field.rs`, `s256_point.rs`,
`signature.rs`, `private_key.rs`, and the `U256` helpers in `secp256k1/ec/utils.rs`),
together with theorems settling the specification claims about it.

Modelling conventions, used throughout:

* The Rust `U256` type (from `construct_uint!`) is modelled as `Nat`. Every value the
  program stores in a `U256` is below `2^256`, and the conversions through `BigUint`
  (`u256_to_big_uint` / `big_uint_to_u256`) are exact on that range, so the arithmetic
  the program performs through `BigUint` is exact `Nat` arithmetic.
* Byte strings (`&[u8]`, `Vec<u8>`, 32-byte buffers) are modelled as `List Nat`,
  each element `< 256` whenever produced by the code.
* Fallible or panicking computations are modelled in `Option`: `none` models the Rust
  panic (`panic!`, `assert!`, `expect`/`unwrap`, out-of-bounds slice index, `usize`
  underflow) or, for `S256Point::new`, the returned `Err` value; the doc comment of
  each definition states which. A Rust function whose only failure mode is a panic
  therefore comes back as `Option`, and `none` witnesses that the function does *not*
  return an error value to its caller.
* `BigUint::modpow` (an external library routine) has the mathematical semantics
  `a^e mod m`; it is embedded as the executable `powModAux` (binary square-and-multiply
  with an explicit fuel, so the kernel can evaluate it), with `powModAux_eq` proving it
  equal to `a ^ e % m` for every exponent below `2 ^ fuel`.
* `hmac_sha256_digest` wraps the external `hmac`/`sha2` crates; it is not code of this
  repository and is modelled as an abstract function parameter
  `hmac : List Nat → List Nat → List Nat` of the signing routines. The RNG behind
  `U256::from_random` is likewise external and is modelled as a stream `Nat → Nat`.
* Rust `while`/`loop` constructs are modelled with an explicit fuel argument; `none` on
  fuel exhaustion models non-termination. The fuel is a modelling artefact: the loops
  in scalar multiplication terminate within 256 iterations because the coefficient is
  halved each round, and the two theorems stated about fuelled loops hold for the fuel
  values the call sites use.
-/

namespace BitcoinReuni

/-- Big-endian byte encoding on a fixed width, modelling `U256::to_big_endian` into a
`len`-byte buffer (the source always uses `len = 32`, and every encoded value is
`< 2^256`, so the encoding is exact). Most significant byte first. -/
def toBE : Nat → Nat → List Nat
  | 0, _ => []
  | len + 1, v => toBE len (v / 256) ++ [v % 256]

/-- Big-endian byte decoding, modelling `U256::from_big_endian` on a byte slice. -/
def fromBE (bs : List Nat) : Nat :=
  bs.foldl (fun acc b => acc * 256 + b) 0

/-- Binary square-and-multiply modular exponentiation with fuel. This is the
executable embedding of `BigUint::modpow` (the external arbitrary-precision routine
behind `u256_modpow`, `U256::modpow`, `S256Field::pow` and `S256Field::sqrt`), whose
semantics is exactly `a ^ e mod m`; see `powModAux_eq`. -/
def powModAux : Nat → Nat → Nat → Nat → Nat
  | 0, _, _, m => 1 % m
  | fuel + 1, a, e, m =>
    if e = 0 then 1 % m
    else
      let h := powModAux fuel (a * a % m) (e / 2) m
      if e % 2 = 1 then h * a % m else h

/-- Embeds `u256_modpow` from `secp256k1/ec/utils.rs`: modular exponentiation through
`BigUint::modpow`. All call sites in the source have `e < 2^256`, where the fuel 256
makes this exactly `a ^ e % m` (`u256_modpow_eq`). -/
def u256_modpow (a e m : Nat) : Nat :=
  powModAux 256 a e m

/-! ## `S256Field` (`secp256k1/s256_field.rs`)

The Rust struct stores `num` together with a `prime` field, but the only constructors
(`S256Field::new`, and `sqrt` which copies `self.prime`) always set
`prime = S256Field::prime()`; the `prime` field is therefore a constant of the type and
is not repeated in the embedding, and the `NotSamePrime` panic branches of `add`, `sub`
and `mul` (which compare the two `prime` fields) are unreachable and omitted. -/
structure S256Field where
  num : Nat
  deriving DecidableEq, Repr

namespace S256Field

/-- Embeds `S256Field::prime()`: `2^256 - 2^32 - 977`, computed in the source through `U512`
and truncated (exactly) to a `U256`. -/
def prime : Nat :=
  115792089237316195423570985008687907853269984665640564039457584007908834671663

/-- Embeds `S256Field::new`: stores the number as given, with **no** reduction mod `prime`. -/
def new (num : Nat) : S256Field :=
  ⟨num⟩

/-- Embeds `impl Add for S256Field`: `(num + rhs.num) % prime` through `BigUint`. -/
def add (a b : S256Field) : S256Field :=
  ⟨(a.num + b.num) % prime⟩

/-- Embeds `impl Sub for S256Field`: computed in the source through a signed `BigInt`, adding
`prime` while negative. For `self.num ≥ rhs.num` this is `(self.num - rhs.num) % prime`;
otherwise the remainder `r = (rhs.num - self.num) % prime` is negated (`BigInt` has no
negative zero, so `r = 0` gives `0`) and one addition of `prime` makes it `prime - r`. -/
def sub (a b : S256Field) : S256Field :=
  if b.num ≤ a.num then ⟨(a.num - b.num) % prime⟩
  else if (b.num - a.num) % prime = 0 then ⟨0⟩
  else ⟨prime - (b.num - a.num) % prime⟩

/-- Embeds `impl Mul for S256Field`: `(num * rhs.num) % prime` through `BigUint`. -/
def mul (a b : S256Field) : S256Field :=
  ⟨a.num * b.num % prime⟩

/-- Embeds `impl Div for S256Field`: `num * rhs.num^(prime-2) % prime` (Fermat inverse). -/
def div (a b : S256Field) : S256Field :=
  ⟨a.num * u256_modpow b.num (prime - 2) prime % prime⟩

/-- Embeds `S256Field::pow(exp: i32)`: a negative exponent is raised by multiples of
`prime - 1` until non-negative (for the `i32` range one addition suffices), then the
exponent is reduced `% (prime - 1)` and `BigUint::modpow` is applied. -/
def pow (a : S256Field) (exp : Int) : S256Field :=
  let e := (if exp < 0 then exp + (prime - 1 : Nat) else exp).toNat % (prime - 1)
  ⟨u256_modpow a.num e prime⟩

/-- Embeds `S256Field::sqrt`: `num ^ ((prime + 1) / 4) % prime` through `BigUint::modpow`. -/
def sqrt (a : S256Field) : S256Field :=
  ⟨u256_modpow a.num ((prime + 1) / 4) prime⟩

end S256Field

/-! ## `S256Point` (`secp256k1/s256_point.rs`)

The Rust struct pairs a `PointValue` with a `Secp256K1EllipticCurve` value, but the
curve component is `Secp256K1EllipticCurve::default()` (that is, `(a, b) = (0, 7)` at
the fixed prime) on every construction path (`new`, `inf`, `gen_point`), so it is a
constant of the type and is not repeated in the embedding; the
`NotInSameEllipticCurves` panic branch of `Add` (which compares the curve components)
is thus unreachable and omitted. `PointValue` is inlined into the inductive. -/
inductive S256Point where
  | infPoint : S256Point
  | normalPoint (x y : S256Field) : S256Point
  deriving DecidableEq, Repr

namespace S256Point

/-- Embeds `Secp256K1EllipticCurve::ec_a()`. -/
def ec_a : S256Field := S256Field.new 0

/-- Embeds `Secp256K1EllipticCurve::ec_b()`. -/
def ec_b : S256Field := S256Field.new 7

/-- Embeds `Secp256K1EllipticCurve::n()`: the secp256k1 group order
`0xfffffffffffffffffffffffffffffffebaaedce6af48a03bbfd25e8cd0364141`. -/
def n : Nat :=
  115792089237316195423570985008687907852837564279074904382605163141518161494337

/-- Embeds `S256Point::new`: validates the curve equation `y^2 = x^3 + a*x + b` with field
arithmetic and returns `Err(PointError::NotInEllipticCurves)` — modelled as `none` —
when it fails. -/
def new (x y : S256Field) : Option S256Point :=
  let left := y.pow 2
  let right := ((x.pow 3).add (ec_a.mul x)).add ec_b
  if left = right then some (normalPoint x y) else none

/-- Embeds `S256Point::inf`. -/
def inf : S256Point := infPoint

/-- Embeds `S256Point::is_inf`. -/
def is_inf : S256Point → Bool
  | infPoint => true
  | normalPoint _ _ => false

/-- The generator's x-coordinate (`gx` in `S256Point::gen_point`). -/
def gx : Nat :=
  55066263022277343669578718895168534326250603453777594175500187360389116729240

/-- The generator's y-coordinate (`gy` in `S256Point::gen_point`). -/
def gy : Nat :=
  32670510020758816978083085130507043184471273380659243275938904335757337482424

/-- Embeds `S256Point::gen_point`: builds the generator through `S256Point::new` and
`unwrap`s it (`none` would model that panic; `gen_point_eq` shows it succeeds). -/
def gen_point : Option S256Point :=
  new (S256Field.new gx) (S256Field.new gy)

/-- Embeds `S256Point::coordinate`: `None` for the point at infinity. -/
def coordinate : S256Point → Option (Nat × Nat)
  | infPoint => none
  | normalPoint x y => some (x.num, y.num)

/-- The tangent (doubling) block of `impl Add for S256Point`:
`s = (3x² + a)/(2y)`, `ret_x = s² - 2x`, `ret_y = s(x - ret_x) - y`, then
`S256Point::new(ret_x, ret_y).expect("Point add error")` (`none` models the panic). -/
def doubleAux (x y : S256Field) : Option S256Point :=
  let s := (((S256Field.new 3).mul (x.pow 2)).add ec_a).div ((S256Field.new 2).mul y)
  let ret_x := (s.pow 2).sub ((S256Field.new 2).mul x)
  let ret_y := (s.mul (x.sub ret_x)).sub y
  new ret_x ret_y

/-- The chord block of `impl Add for S256Point`:
`s = (rhs_y - y)/(rhs_x - x)`, `ret_x = s² - x - rhs_x`, `ret_y = s(x - ret_x) - y`,
then `S256Point::new(ret_x, ret_y).expect("Point add error")`. -/
def chordAux (x y rhs_x rhs_y : S256Field) : Option S256Point :=
  let s := (rhs_y.sub y).div (rhs_x.sub x)
  let ret_x := ((s.pow 2).sub x).sub rhs_x
  let ret_y := (s.mul (x.sub ret_x)).sub y
  new ret_x ret_y

/-- Embeds `impl Add for S256Point` (`s256_point.rs:231-268`), with the case order of the
source `match`; the two `let s / ret_x / ret_y` blocks of the source are the named
`doubleAux` and `chordAux` above. -/
def add (p rhs : S256Point) : Option S256Point :=
  match p, rhs with
  | normalPoint x y, normalPoint rhs_x rhs_y =>
    if x = rhs_x then
      if y = rhs_y then
        if y.num = 0 then some inf
        else doubleAux x y
      else some inf
    else chordAux x y rhs_x rhs_y
  | infPoint, _ => some rhs
  | _, infPoint => some p

/-- The `while coef > 0` loop of `impl Mul for S256Point`, with fuel. Each iteration
adds `current` into `result` when the low bit of `coef` is set, doubles `current`
(also on the final iteration, as the source does), and shifts `coef` right. The fuel
`256` used by `mul` suffices for every `coef < 2^256` (`mulLoop` reaches `coef = 0`
after at most 256 halvings). -/
def mulLoop : Nat → Nat → S256Point → S256Point → Option S256Point
  | 0, coef, _, result => if coef = 0 then some result else none
  | fuel + 1, coef, current, result =>
    if coef = 0 then some result
    else do
      let result' ← if coef % 2 = 1 then add result current else some result
      let current' ← add current current
      mulLoop fuel (coef / 2) current' result'

/-- Embeds `impl Mul<T> for S256Point`: reduces the scalar `% n` first, then double-and-add. -/
def mul (p : S256Point) (k : Nat) : Option S256Point :=
  mulLoop 256 (k % n) p inf

end S256Point

/-! ## `Signature` (`secp256k1/signature.rs`) -/

structure Signature where
  r : Nat
  s : Nat
  deriving DecidableEq, Repr

namespace Signature

/-- Embeds `Signature::u256_der`: serializes one integer. The source iterates over all 32
big-endian bytes and keeps **every non-zero byte** (`if *i != b'\x00'`), then `expect`s
the deque to be non-empty (`none` models that panic, reached exactly for `v = 0`),
prepends `0x00` when the leading byte has its high bit set (`& 0x80 > 0`, i.e. `≥ 128`
for a byte), and prepends the length byte and the `0x02` tag. -/
def u256_der (v : Nat) : Option (List Nat) :=
  let bytes := (toBE 32 v).filter (fun b => b ≠ 0)
  match bytes with
  | [] => none
  | b :: _ =>
    let ret := if 128 ≤ b then 0 :: bytes else bytes
    some (2 :: ret.length :: ret)

/-- Embeds `Signature::der`: `0x30 ‖ len ‖ der(r) ‖ der(s)` (the length fits one byte). -/
def der (sig : Signature) : Option (List Nat) := do
  let rb ← u256_der sig.r
  let sb ← u256_der sig.s
  let body := rb ++ sb
  return 0x30 :: body.length :: body

/-- Rust slice `&l[a..b]`: panics (`none`) unless `a ≤ b ≤ l.len()`. -/
def listSlice (l : List Nat) (a b : Nat) : Option (List Nat) :=
  if a ≤ b ∧ b ≤ l.length then some ((l.drop a).take (b - a)) else none

/-- Embeds `Signature::parse_der_u256`: `none` models the `assert_eq!(bytes[0], 2)` and
`assert!(len <= 33)` panics, the out-of-bounds index/slice panics, and the `usize`
underflow panic of `32 - slice.len()` when the slice is longer than 32 bytes. -/
def parse_der_u256 (bytes : List Nat) : Option Nat := do
  let b0 ← bytes.get? 0
  if b0 ≠ 2 then none
  else do
    let len ← bytes.get? 1
    if 33 < len then none
    else do
      let b2 ← bytes.get? 2
      let slice ← if b2 = 0 then listSlice bytes 3 (2 + len) else listSlice bytes 2 (2 + len)
      if 32 < slice.length then none
      else return fromBE (List.replicate (32 - slice.length) 0 ++ slice)

/-- Embeds `Signature::parse_der`: `none` models the `assert_eq!(der_bytes[0], 0x30)` and
`assert!(der_bytes.len() > der_bytes[1] + 1)` panics and every index/slice panic. -/
def parse_der (der_bytes : List Nat) : Option Signature := do
  let b0 ← der_bytes.get? 0
  if b0 ≠ 0x30 then none
  else do
    let b1 ← der_bytes.get? 1
    if ¬ b1 + 1 < der_bytes.length then none
    else do
      let r_len ← der_bytes.get? 3
      let rSlice ← listSlice der_bytes 2 (4 + r_len)
      let r ← parse_der_u256 rSlice
      let s_len ← der_bytes.get? (5 + r_len)
      let sSlice ← listSlice der_bytes (4 + r_len) (6 + r_len + s_len)
      let s ← parse_der_u256 sSlice
      return ⟨r, s⟩

end Signature

namespace S256Point

/-- Lines 142-149 of `S256Point::verify`: `s_inv = s^(n-2) mod n` (no range check on
`r` or `s`), `u = z·s_inv mod n`, `v = r·s_inv mod n`, and `T = u·G + v·self`.
`u256_modmul` is exact `Nat` arithmetic `(a * b) % n`. -/
def verify_t (pt : S256Point) (z : Nat) (sig : Signature) : Option S256Point := do
  let s_inv := u256_modpow sig.s (n - 2) n
  let u := z * s_inv % n
  let v := sig.r * s_inv % n
  let g ← gen_point
  let gu ← g.mul u
  let pv ← pt.mul v
  add gu pv

/-- Embeds `S256Point::verify`: compares `sig.r` with `t.coordinate().unwrap().0`; the
`unwrap` panics — `none` — when `T` is the point at infinity. -/
def verify (pt : S256Point) (z : Nat) (sig : Signature) : Option Bool := do
  let t ← verify_t pt z sig
  let c ← t.coordinate
  return decide (sig.r = c.1)

/-- Embeds `S256Point::sec` (uncompressed, 65 bytes): `unwrap`s `coordinate()`, so `none`
models the panic on the point at infinity. -/
def sec (p : S256Point) : Option (List Nat) := do
  let c ← p.coordinate
  return 4 :: (toBE 32 c.1 ++ toBE 32 c.2)

/-- Embeds `S256Point::compressed_sec` (33 bytes): prefix `0x02` for even `y` (`u256_is_even`),
else `0x03`; `unwrap`s `coordinate()`, so `none` models the panic at infinity. -/
def compressed_sec (p : S256Point) : Option (List Nat) := do
  let c ← p.coordinate
  return (if c.2 % 2 = 0 then 2 else 3) :: toBE 32 c.1

/-- Embeds `S256Point::parse_sec`: `none` models the `assert!(sec_bytes.len() >= 33)` panic,
the out-of-bounds panic of `&sec_bytes[33..65]` on a short uncompressed input, and the
two `expect` panics on the `S256Point::new` results. Any leading byte other than `4`
enters the compressed branch, with `is_even` true exactly for the byte `2`. -/
def parse_sec (sec_bytes : List Nat) : Option S256Point :=
  if sec_bytes.length < 33 then none
  else
    let b0 := sec_bytes.headI
    if b0 = 4 then
      if sec_bytes.length < 65 then none
      else
        let x := S256Field.new (fromBE ((sec_bytes.drop 1).take 32))
        let y := S256Field.new (fromBE ((sec_bytes.drop 33).take 32))
        new x y
    else
      let is_even := b0 = 2
      let x := S256Field.new (fromBE ((sec_bytes.drop 1).take 32))
      let alpha := (x.pow 3).add ec_b
      let beta := alpha.sqrt
      let pair :=
        if beta.num % 2 = 0 then (beta, S256Field.new (S256Field.prime - beta.num))
        else (S256Field.new (S256Field.prime - beta.num), beta)
      if is_even then new x pair.1 else new x pair.2

end S256Point

/-! ## `PrivateKey` (`secp256k1/private_key.rs`) -/

structure PrivateKey where
  secret : Nat
  point : S256Point
  deriving DecidableEq, Repr

namespace PrivateKey

/-- Embeds `PrivateKey::new`: caches `secret · G` (through the panicking `gen_point`). -/
def new (secret : Nat) : Option PrivateKey := do
  let g ← S256Point.gen_point
  let pt ← g.mul secret
  return ⟨secret, pt⟩

/-- The trailing `loop` of `PrivateKey::deterministic_k`, with fuel: draw
`v = HMAC(k, v)`, accept the candidate `U256::from_big_endian(v)` when it lies in
`[1, n)`, otherwise rekey with `HMAC(k, v ‖ 0x00)` and redraw. -/
def detKLoop (hmac : List Nat → List Nat → List Nat) :
    List Nat → List Nat → Nat → Option Nat
  | _, _, 0 => none
  | k, v, fuel + 1 =>
    let v' := hmac k v
    let candidate := fromBE v'
    if 1 ≤ candidate ∧ candidate < S256Point.n then some candidate
    else
      let k' := hmac k (v' ++ [0])
      let v'' := hmac k' v'
      detKLoop hmac k' v'' fuel

/-- Embeds `PrivateKey::deterministic_k` (RFC 6979 style): seeds `k = 0x00…00`,
`v = 0x01…01`, reduces `z` by `n` once when `z > n`, performs the two keyed rounds
`k = HMAC(k, v ‖ 0x00 ‖ secret ‖ z)`, `v = HMAC(k, v)`, then
`k = HMAC(k, v ‖ 0x01 ‖ secret ‖ z)`, `v = HMAC(k, v)`, and enters the candidate
loop. `hmac` abstracts the external `hmac_sha256_digest`. -/
def deterministic_k (hmac : List Nat → List Nat → List Nat) (pk : PrivateKey)
    (z : Nat) (fuel : Nat) : Option Nat :=
  let z' := if z > S256Point.n then z - S256Point.n else z
  let z_bytes := toBE 32 z'
  let secret_bytes := toBE 32 pk.secret
  let k0 : List Nat := List.replicate 32 0
  let v0 : List Nat := List.replicate 32 1
  let k1 := hmac k0 (v0 ++ [0] ++ secret_bytes ++ z_bytes)
  let v1 := hmac k1 v0
  let k2 := hmac k1 (v1 ++ [1] ++ secret_bytes ++ z_bytes)
  let v2 := hmac k2 v1
  detKLoop hmac k2 v2 fuel

/-- The `while k > n { k = U256::from_random(); }` loop of `PrivateKey::sign`, with the
RNG modelled as the stream `rand` read at successive indices, and fuel. -/
def whileRandom (rand : Nat → Nat) : Nat → Nat → Nat → Option Nat
  | _, _, 0 => none
  | k, i, fuel + 1 =>
    if k > S256Point.n then whileRandom rand (rand i) (i + 1) fuel else some k

/-- Embeds `PrivateKey::sign`: derives `k` (deterministically, then the random-resampling
`while` loop), computes `r = (k·G).x` (the `unwrap` on `coordinate()` is `none` at
infinity), `k_inv = k^(n-2) mod n`, `s = (z + r·secret)·k_inv mod n` (exact through
`BigUint`), and normalizes `s` to the low half: `if s > n/2 { s = n - s }`. -/
def sign (hmac : List Nat → List Nat → List Nat) (rand : Nat → Nat)
    (pk : PrivateKey) (z : Nat) (fuelK fuelW : Nat) : Option Signature := do
  let k0 ← deterministic_k hmac pk z fuelK
  let k ← whileRandom rand k0 0 fuelW
  let g ← S256Point.gen_point
  let kg ← g.mul k
  let c ← kg.coordinate
  let r := c.1
  let k_inv := u256_modpow k (S256Point.n - 2) S256Point.n
  let s0 := (z + r * pk.secret) * k_inv % S256Point.n
  let s := if s0 > S256Point.n / 2 then S256Point.n - s0 else s0
  return ⟨r, s⟩

end PrivateKey

/-! ## Specification-side definitions

The remaining definitions are not part of the program: they serve the statements and
proofs. `φ` interprets field representatives in `ZMod prime`, `W` is secp256k1 as a
Mathlib Weierstrass curve, and `Rel` relates the code's points to Mathlib's
nonsingular points. -/

/-- Maps an `S256Field` representative to its residue class in `ZMod prime`. -/
def φ (a : S256Field) : ZMod S256Field.prime := (a.num : ZMod S256Field.prime)

/-- The curve `y² = x³ + 7` over `ZMod prime`, in Weierstrass normal form. -/
def W : WeierstrassCurve.Affine (ZMod S256Field.prime) :=
  { a₁ := 0, a₂ := 0, a₃ := 0, a₄ := 0, a₆ := 7 }

/-- Correspondence between the code's points and Mathlib's nonsingular points. -/
inductive Rel : S256Point → W.Point → Prop where
  | inf : Rel S256Point.infPoint 0
  | affine {x y : S256Field} (hx : x.num < S256Field.prime)
      (hy : y.num < S256Field.prime) (h : W.Nonsingular (φ x) (φ y)) :
      Rel (S256Point.normalPoint x y) (WeierstrassCurve.Affine.Point.some h)

/-! ## Supporting lemmas -/

theorem powModAux_eq (fuel : Nat) :
    ∀ a e m : Nat, e < 2 ^ fuel → powModAux fuel a e m = a ^ e % m := by
  induction fuel with
  | zero =>
    intro a e m he
    interval_cases e
    simp [powModAux]
  | succ f ih =>
    intro a e m he
    rw [powModAux]
    by_cases he0 : e = 0
    · simp [he0]
    · have hdiv : e / 2 < 2 ^ f := by
        have : e < 2 * 2 ^ f := by rwa [pow_succ, mul_comm] at he
        omega
      rw [if_neg he0, ih (a * a % m) (e / 2) m hdiv]
      have hsq : (a * a % m) ^ (e / 2) % m = (a * a) ^ (e / 2) % m := by
        rw [Nat.pow_mod, Nat.mod_mod_of_dvd _ dvd_rfl, ← Nat.pow_mod]
      by_cases hodd : e % 2 = 1
      · rw [if_pos hodd]
        have he2 : 2 * (e / 2) + 1 = e := by omega
        rw [hsq, Nat.mod_mul_mod, ← pow_two, ← pow_mul, ← pow_succ, he2]
      · rw [if_neg hodd]
        have he2 : 2 * (e / 2) = e := by omega
        rw [hsq, ← pow_two, ← pow_mul, he2]

theorem u256_modpow_eq (a e m : Nat) (he : e < 2 ^ 256) :
    u256_modpow a e m = a ^ e % m :=
  powModAux_eq 256 a e m he

theorem powModAux_lt (fuel a e m : Nat) (hm : 0 < m) : powModAux fuel a e m < m := by
  induction fuel generalizing a e with
  | zero => simpa [powModAux] using Nat.mod_lt 1 hm
  | succ f ih =>
    rw [powModAux]
    by_cases he0 : e = 0
    · simpa [he0] using Nat.mod_lt 1 hm
    · rw [if_neg he0]
      by_cases hodd : e % 2 = 1
      · rw [if_pos hodd]; exact Nat.mod_lt _ hm
      · rw [if_neg hodd]; exact ih _ _

theorem S256Field.prime_eq :
    S256Field.prime = 2 ^ 256 - 2 ^ 32 - 977 := by norm_num [S256Field.prime]

/-! ## Primality certificates

The number-theoretic claims about the curve (square-root correctness in SEC
decompression, and the order of the generator) need the two secp256k1 constants — the
field prime `p` and the group order `n` — to be prime. These are certified through
`lucas_primality`, with the full factorization of each `p - 1` in the certificate chain
and the modular exponentiations discharged by the executable `powModAux`. -/

/-- Computing a power in `ZMod n` reduces to the executable `powModAux`. -/
theorem zmod_pow_eq_one_iff (a e n : Nat) (he : e < 2 ^ 256) :
    ((a : ZMod n) ^ e = 1) ↔ powModAux 256 a e n = 1 % n := by
  have h1 : ((a : ZMod n) ^ e = 1) ↔ ((a ^ e : Nat) : ZMod n) = ((1 : Nat) : ZMod n) := by
    rw [Nat.cast_pow, Nat.cast_one]
  rw [h1, ZMod.natCast_eq_natCast_iff', powModAux_eq 256 a e n he]

/-- Lucas primality certificate in executable form: `a` has order `p - 1` mod `p`. -/
theorem lucas_cert (p a : Nat) (hlt : p - 1 < 2 ^ 256)
    (ha : powModAux 256 a (p - 1) p = 1 % p)
    (hd : ∀ q : Nat, q.Prime → q ∣ (p - 1) →
      powModAux 256 a ((p - 1) / q) p ≠ 1 % p) :
    p.Prime := by
  apply lucas_primality p (a : ZMod p)
  · exact (zmod_pow_eq_one_iff a (p - 1) p hlt).mpr ha
  · intro q hq hdvd h1
    exact hd q hq hdvd
      ((zmod_pow_eq_one_iff a ((p - 1) / q) p
        (lt_of_le_of_lt (Nat.div_le_self _ _) hlt)).mp h1)

theorem prime_eq_of_dvd_prime {q r : Nat} (hq : q.Prime) (hr : r.Prime) (h : q ∣ r) :
    q = r :=
  (Nat.prime_dvd_prime_iff_eq hq hr).mp h

theorem prime_dvd_pow_cases {q r e : Nat} (hq : q.Prime) (hr : r.Prime)
    (h : q ∣ r ^ e) : q = r :=
  prime_eq_of_dvd_prime hq hr (hq.dvd_of_dvd_pow h)

set_option maxRecDepth 10000 in
theorem prime_297159362677 : Nat.Prime 297159362677 := by
  apply lucas_cert 297159362677 2 (by norm_num)
  · decide
  · intro q hq hdvd
    have hc : q = 2 ∨ q = 3 ∨ q = 11 ∨ q = 461 ∨ q = 1627771 := by
      have hfac : (297159362677 : Nat) - 1 = 2 ^ 2 * (3 ^ 2 * (11 * (461 * 1627771))) := by
        norm_num
      rw [hfac] at hdvd
      rcases hq.dvd_mul.mp hdvd with h | h
      · exact Or.inl (prime_dvd_pow_cases hq Nat.prime_two h)
      rcases hq.dvd_mul.mp h with h | h
      · exact Or.inr (Or.inl (prime_dvd_pow_cases hq Nat.prime_three h))
      rcases hq.dvd_mul.mp h with h | h
      · exact Or.inr (Or.inr (Or.inl (prime_eq_of_dvd_prime hq (by norm_num) h)))
      rcases hq.dvd_mul.mp h with h | h
      · exact Or.inr (Or.inr (Or.inr (Or.inl (prime_eq_of_dvd_prime hq (by norm_num) h))))
      · exact Or.inr (Or.inr (Or.inr (Or.inr (prime_eq_of_dvd_prime hq (by norm_num) h))))
    rcases hc with rfl | rfl | rfl | rfl | rfl <;> decide

set_option maxRecDepth 10000 in
theorem prime_545358713 : Nat.Prime 545358713 := by
  apply lucas_cert 545358713 5 (by norm_num)
  · decide
  · intro q hq hdvd
    have hc : q = 2 ∨ q = 41 ∨ q = 59 ∨ q = 28181 := by
      have hfac : (545358713 : Nat) - 1 = 2 ^ 3 * (41 * (59 * 28181)) := by norm_num
      rw [hfac] at hdvd
      rcases hq.dvd_mul.mp hdvd with h | h
      · exact Or.inl (prime_dvd_pow_cases hq Nat.prime_two h)
      rcases hq.dvd_mul.mp h with h | h
      · exact Or.inr (Or.inl (prime_eq_of_dvd_prime hq (by norm_num) h))
      rcases hq.dvd_mul.mp h with h | h
      · exact Or.inr (Or.inr (Or.inl (prime_eq_of_dvd_prime hq (by norm_num) h)))
      · exact Or.inr (Or.inr (Or.inr (prime_eq_of_dvd_prime hq (by norm_num) h)))
    rcases hc with rfl | rfl | rfl | rfl <;> decide

set_option maxRecDepth 10000 in
theorem prime_44706919 : Nat.Prime 44706919 := by
  apply lucas_cert 44706919 6 (by norm_num)
  · decide
  · intro q hq hdvd
    have hc : q = 2 ∨ q = 3 ∨ q = 797 ∨ q = 9349 := by
      have hfac : (44706919 : Nat) - 1 = 2 * (3 * (797 * 9349)) := by norm_num
      rw [hfac] at hdvd
      rcases hq.dvd_mul.mp hdvd with h | h
      · exact Or.inl (prime_eq_of_dvd_prime hq Nat.prime_two h)
      rcases hq.dvd_mul.mp h with h | h
      · exact Or.inr (Or.inl (prime_eq_of_dvd_prime hq Nat.prime_three h))
      rcases hq.dvd_mul.mp h with h | h
      · exact Or.inr (Or.inr (Or.inl (prime_eq_of_dvd_prime hq (by norm_num) h)))
      · exact Or.inr (Or.inr (Or.inr (prime_eq_of_dvd_prime hq (by norm_num) h)))
    rcases hc with rfl | rfl | rfl | rfl <;> decide

set_option maxRecDepth 10000 in
theorem prime_29047611873442575647497758179 :
    Nat.Prime 29047611873442575647497758179 := by
  apply lucas_cert 29047611873442575647497758179 2 (by norm_num)
  · decide
  · intro q hq hdvd
    have hc : q = 2 ∨ q = 293 ∨ q = 305873 ∨ q = 545358713 ∨ q = 297159362677 := by
      have hfac : (29047611873442575647497758179 : Nat) - 1 =
          2 * (293 * (305873 * (545358713 * 297159362677))) := by norm_num
      rw [hfac] at hdvd
      rcases hq.dvd_mul.mp hdvd with h | h
      · exact Or.inl (prime_eq_of_dvd_prime hq Nat.prime_two h)
      rcases hq.dvd_mul.mp h with h | h
      · exact Or.inr (Or.inl (prime_eq_of_dvd_prime hq (by norm_num) h))
      rcases hq.dvd_mul.mp h with h | h
      · exact Or.inr (Or.inr (Or.inl (prime_eq_of_dvd_prime hq (by norm_num) h)))
      rcases hq.dvd_mul.mp h with h | h
      · exact Or.inr (Or.inr (Or.inr (Or.inl (prime_eq_of_dvd_prime hq prime_545358713 h))))
      · exact Or.inr (Or.inr (Or.inr (Or.inr
          (prime_eq_of_dvd_prime hq prime_297159362677 h))))
    rcases hc with rfl | rfl | rfl | rfl | rfl <;> decide

set_option maxRecDepth 10000 in
theorem prime_107361793816595537 : Nat.Prime 107361793816595537 := by
  apply lucas_cert 107361793816595537 3 (by norm_num)
  · decide
  · intro q hq hdvd
    have hc : q = 2 ∨ q = 16699 ∨ q = 85831 ∨ q = 4681609 := by
      have hfac : (107361793816595537 : Nat) - 1 =
          2 ^ 4 * (16699 * (85831 * 4681609)) := by norm_num
      rw [hfac] at hdvd
      rcases hq.dvd_mul.mp hdvd with h | h
      · exact Or.inl (prime_dvd_pow_cases hq Nat.prime_two h)
      rcases hq.dvd_mul.mp h with h | h
      · exact Or.inr (Or.inl (prime_eq_of_dvd_prime hq (by norm_num) h))
      rcases hq.dvd_mul.mp h with h | h
      · exact Or.inr (Or.inr (Or.inl (prime_eq_of_dvd_prime hq (by norm_num) h)))
      · exact Or.inr (Or.inr (Or.inr (prime_eq_of_dvd_prime hq (by norm_num) h)))
    rcases hc with rfl | rfl | rfl | rfl <;> decide

set_option maxRecDepth 10000 in
theorem prime_174723607534414371449 : Nat.Prime 174723607534414371449 := by
  apply lucas_cert 174723607534414371449 3 (by norm_num)
  · decide
  · intro q hq hdvd
    have hc : q = 2 ∨ q = 17 ∨ q = 59 ∨ q = 4051 ∨ q = 120233 ∨ q = 44706919 := by
      have hfac : (174723607534414371449 : Nat) - 1 =
          2 ^ 3 * (17 * (59 * (4051 * (120233 * 44706919)))) := by norm_num
      rw [hfac] at hdvd
      rcases hq.dvd_mul.mp hdvd with h | h
      · exact Or.inl (prime_dvd_pow_cases hq Nat.prime_two h)
      rcases hq.dvd_mul.mp h with h | h
      · exact Or.inr (Or.inl (prime_eq_of_dvd_prime hq (by norm_num) h))
      rcases hq.dvd_mul.mp h with h | h
      · exact Or.inr (Or.inr (Or.inl (prime_eq_of_dvd_prime hq (by norm_num) h)))
      rcases hq.dvd_mul.mp h with h | h
      · exact Or.inr (Or.inr (Or.inr (Or.inl (prime_eq_of_dvd_prime hq (by norm_num) h))))
      rcases hq.dvd_mul.mp h with h | h
      · exact Or.inr (Or.inr (Or.inr (Or.inr (Or.inl
          (prime_eq_of_dvd_prime hq (by norm_num) h)))))
      · exact Or.inr (Or.inr (Or.inr (Or.inr (Or.inr
          (prime_eq_of_dvd_prime hq prime_44706919 h)))))
    rcases hc with rfl | rfl | rfl | rfl | rfl | rfl <;> decide

set_option maxRecDepth 10000 in
theorem prime_341948486974166000522343609283189 :
    Nat.Prime 341948486974166000522343609283189 := by
  apply lucas_cert 341948486974166000522343609283189 2 (by norm_num)
  · decide
  · intro q hq hdvd
    have hc : q = 2 ∨ q = 3 ∨ q = 109 ∨ q = 29047611873442575647497758179 := by
      have hfac : (341948486974166000522343609283189 : Nat) - 1 =
          2 ^ 2 * (3 ^ 3 * (109 * 29047611873442575647497758179)) := by norm_num
      rw [hfac] at hdvd
      rcases hq.dvd_mul.mp hdvd with h | h
      · exact Or.inl (prime_dvd_pow_cases hq Nat.prime_two h)
      rcases hq.dvd_mul.mp h with h | h
      · exact Or.inr (Or.inl (prime_dvd_pow_cases hq Nat.prime_three h))
      rcases hq.dvd_mul.mp h with h | h
      · exact Or.inr (Or.inr (Or.inl (prime_eq_of_dvd_prime hq (by norm_num) h)))
      · exact Or.inr (Or.inr (Or.inr
          (prime_eq_of_dvd_prime hq prime_29047611873442575647497758179 h)))
    rcases hc with rfl | rfl | rfl | rfl <;> decide

set_option maxRecDepth 10000 in
/-- The secp256k1 group order `n` is prime. -/
theorem n_prime :
    Nat.Prime
      115792089237316195423570985008687907852837564279074904382605163141518161494337 := by
  apply lucas_cert
    115792089237316195423570985008687907852837564279074904382605163141518161494337 7
    (by norm_num)
  · decide
  · intro q hq hdvd
    have hc : q = 2 ∨ q = 3 ∨ q = 149 ∨ q = 631 ∨ q = 107361793816595537 ∨
        q = 174723607534414371449 ∨ q = 341948486974166000522343609283189 := by
      have hfac :
          (115792089237316195423570985008687907852837564279074904382605163141518161494337 :
            Nat) - 1 =
          2 ^ 6 * (3 * (149 * (631 * (107361793816595537 * (174723607534414371449 *
            341948486974166000522343609283189))))) := by norm_num
      rw [hfac] at hdvd
      rcases hq.dvd_mul.mp hdvd with h | h
      · exact Or.inl (prime_dvd_pow_cases hq Nat.prime_two h)
      rcases hq.dvd_mul.mp h with h | h
      · exact Or.inr (Or.inl (prime_eq_of_dvd_prime hq Nat.prime_three h))
      rcases hq.dvd_mul.mp h with h | h
      · exact Or.inr (Or.inr (Or.inl (prime_eq_of_dvd_prime hq (by norm_num) h)))
      rcases hq.dvd_mul.mp h with h | h
      · exact Or.inr (Or.inr (Or.inr (Or.inl (prime_eq_of_dvd_prime hq (by norm_num) h))))
      rcases hq.dvd_mul.mp h with h | h
      · exact Or.inr (Or.inr (Or.inr (Or.inr (Or.inl
          (prime_eq_of_dvd_prime hq prime_107361793816595537 h)))))
      rcases hq.dvd_mul.mp h with h | h
      · exact Or.inr (Or.inr (Or.inr (Or.inr (Or.inr (Or.inl
          (prime_eq_of_dvd_prime hq prime_174723607534414371449 h))))))
      · exact Or.inr (Or.inr (Or.inr (Or.inr (Or.inr (Or.inr
          (prime_eq_of_dvd_prime hq prime_341948486974166000522343609283189 h))))))
    rcases hc with rfl | rfl | rfl | rfl | rfl | rfl | rfl <;> decide


set_option maxRecDepth 10000 in
theorem prime_173378833005251801 : Nat.Prime 173378833005251801 := by
  apply lucas_cert 173378833005251801 6 (by norm_num)
  · decide
  · intro q hq hdvd
    have hc : q = 2 ∨ q = 5 ∨ q = 2621 ∨ q = 24809 ∨ q = 13331831 := by
      have hfac : (173378833005251801 : Nat) - 1 =
          2 ^ 3 * (5 ^ 2 * (2621 * (24809 * 13331831))) := by norm_num
      rw [hfac] at hdvd
      rcases hq.dvd_mul.mp hdvd with h | h
      · exact Or.inl (prime_dvd_pow_cases hq Nat.prime_two h)
      rcases hq.dvd_mul.mp h with h | h
      · exact Or.inr (Or.inl (prime_dvd_pow_cases hq (by norm_num) h))
      rcases hq.dvd_mul.mp h with h | h
      · exact Or.inr (Or.inr (Or.inl (prime_eq_of_dvd_prime hq (by norm_num) h)))
      rcases hq.dvd_mul.mp h with h | h
      · exact Or.inr (Or.inr (Or.inr (Or.inl (prime_eq_of_dvd_prime hq (by norm_num) h))))
      · exact Or.inr (Or.inr (Or.inr (Or.inr (prime_eq_of_dvd_prime hq (by norm_num) h))))
    rcases hc with rfl | rfl | rfl | rfl | rfl <;> decide

set_option maxRecDepth 10000 in
theorem prime_22149492674086928081353 : Nat.Prime 22149492674086928081353 := by
  apply lucas_cert 22149492674086928081353 5 (by norm_num)
  · decide
  · intro q hq hdvd
    have hc : q = 2 ∨ q = 3 ∨ q = 5323 ∨ q = 173378833005251801 := by
      have hfac : (22149492674086928081353 : Nat) - 1 =
          2 ^ 3 * (3 * (5323 * 173378833005251801)) := by norm_num
      rw [hfac] at hdvd
      rcases hq.dvd_mul.mp hdvd with h | h
      · exact Or.inl (prime_dvd_pow_cases hq Nat.prime_two h)
      rcases hq.dvd_mul.mp h with h | h
      · exact Or.inr (Or.inl (prime_eq_of_dvd_prime hq Nat.prime_three h))
      rcases hq.dvd_mul.mp h with h | h
      · exact Or.inr (Or.inr (Or.inl (prime_eq_of_dvd_prime hq (by norm_num) h)))
      · exact Or.inr (Or.inr (Or.inr
          (prime_eq_of_dvd_prime hq prime_173378833005251801 h)))
    rcases hc with rfl | rfl | rfl | rfl <;> decide

set_option maxRecDepth 10000 in
theorem prime_132896956044521568488119 : Nat.Prime 132896956044521568488119 := by
  apply lucas_cert 132896956044521568488119 6 (by norm_num)
  · decide
  · intro q hq hdvd
    have hc : q = 2 ∨ q = 3 ∨ q = 22149492674086928081353 := by
      have hfac : (132896956044521568488119 : Nat) - 1 =
          2 * (3 * 22149492674086928081353) := by norm_num
      rw [hfac] at hdvd
      rcases hq.dvd_mul.mp hdvd with h | h
      · exact Or.inl (prime_eq_of_dvd_prime hq Nat.prime_two h)
      rcases hq.dvd_mul.mp h with h | h
      · exact Or.inr (Or.inl (prime_eq_of_dvd_prime hq Nat.prime_three h))
      · exact Or.inr (Or.inr (prime_eq_of_dvd_prime hq prime_22149492674086928081353 h))
    rcases hc with rfl | rfl | rfl <;> decide

set_option maxRecDepth 10000 in
theorem prime_107590001 : Nat.Prime 107590001 := by
  apply lucas_cert 107590001 3 (by norm_num)
  · decide
  · intro q hq hdvd
    have hc : q = 2 ∨ q = 5 ∨ q = 7 ∨ q = 29 ∨ q = 53 := by
      have hfac : (107590001 : Nat) - 1 = 2 ^ 4 * (5 ^ 4 * (7 * (29 * 53))) := by norm_num
      rw [hfac] at hdvd
      rcases hq.dvd_mul.mp hdvd with h | h
      · exact Or.inl (prime_dvd_pow_cases hq Nat.prime_two h)
      rcases hq.dvd_mul.mp h with h | h
      · exact Or.inr (Or.inl (prime_dvd_pow_cases hq (by norm_num) h))
      rcases hq.dvd_mul.mp h with h | h
      · exact Or.inr (Or.inr (Or.inl (prime_eq_of_dvd_prime hq (by norm_num) h)))
      rcases hq.dvd_mul.mp h with h | h
      · exact Or.inr (Or.inr (Or.inr (Or.inl (prime_eq_of_dvd_prime hq (by norm_num) h))))
      · exact Or.inr (Or.inr (Or.inr (Or.inr (prime_eq_of_dvd_prime hq (by norm_num) h))))
    rcases hc with rfl | rfl | rfl | rfl | rfl <;> decide

set_option maxRecDepth 10000 in
theorem prime_255515944373312847190720520512484175977 :
    Nat.Prime 255515944373312847190720520512484175977 := by
  apply lucas_cert 255515944373312847190720520512484175977 3 (by norm_num)
  · decide
  · intro q hq hdvd
    have hc : q = 2 ∨ q = 7 ∨ q = 11 ∨ q = 1627 ∨ q = 2657 ∨ q = 4423 ∨ q = 41201 ∨
        q = 96557 ∨ q = 7240687 ∨ q = 107590001 := by
      have hfac : (255515944373312847190720520512484175977 : Nat) - 1 =
          2 ^ 3 * (7 ^ 2 * (11 * (1627 * (2657 * (4423 * (41201 * (96557 *
            (7240687 * 107590001)))))))) := by norm_num
      rw [hfac] at hdvd
      rcases hq.dvd_mul.mp hdvd with h | h
      · exact Or.inl (prime_dvd_pow_cases hq Nat.prime_two h)
      rcases hq.dvd_mul.mp h with h | h
      · exact Or.inr (Or.inl (prime_dvd_pow_cases hq (by norm_num) h))
      rcases hq.dvd_mul.mp h with h | h
      · exact Or.inr (Or.inr (Or.inl (prime_eq_of_dvd_prime hq (by norm_num) h)))
      rcases hq.dvd_mul.mp h with h | h
      · exact Or.inr (Or.inr (Or.inr (Or.inl (prime_eq_of_dvd_prime hq (by norm_num) h))))
      rcases hq.dvd_mul.mp h with h | h
      · exact Or.inr (Or.inr (Or.inr (Or.inr (Or.inl
          (prime_eq_of_dvd_prime hq (by norm_num) h)))))
      rcases hq.dvd_mul.mp h with h | h
      · exact Or.inr (Or.inr (Or.inr (Or.inr (Or.inr (Or.inl
          (prime_eq_of_dvd_prime hq (by norm_num) h))))))
      rcases hq.dvd_mul.mp h with h | h
      · exact Or.inr (Or.inr (Or.inr (Or.inr (Or.inr (Or.inr (Or.inl
          (prime_eq_of_dvd_prime hq (by norm_num) h)))))))
      rcases hq.dvd_mul.mp h with h | h
      · exact Or.inr (Or.inr (Or.inr (Or.inr (Or.inr (Or.inr (Or.inr (Or.inl
          (prime_eq_of_dvd_prime hq (by norm_num) h))))))))
      rcases hq.dvd_mul.mp h with h | h
      · exact Or.inr (Or.inr (Or.inr (Or.inr (Or.inr (Or.inr (Or.inr (Or.inr (Or.inl
          (prime_eq_of_dvd_prime hq (by norm_num) h)))))))))
      · exact Or.inr (Or.inr (Or.inr (Or.inr (Or.inr (Or.inr (Or.inr (Or.inr (Or.inr
          (prime_eq_of_dvd_prime hq prime_107590001 h)))))))))
    rcases hc with rfl | rfl | rfl | rfl | rfl | rfl | rfl | rfl | rfl | rfl <;> decide

set_option maxRecDepth 10000 in
theorem prime_F_205 :
    Nat.Prime
      205115282021455665897114700593932402728804164701536103180137503955397371 := by
  apply lucas_cert
    205115282021455665897114700593932402728804164701536103180137503955397371 10
    (by norm_num)
  · decide
  · intro q hq hdvd
    have hc : q = 2 ∨ q = 3 ∨ q = 5 ∨ q = 29 ∨ q = 31 ∨ q = 7723 ∨
        q = 132896956044521568488119 ∨ q = 255515944373312847190720520512484175977 := by
      have hfac :
          (205115282021455665897114700593932402728804164701536103180137503955397371 :
            Nat) - 1 =
          2 * (3 * (5 * (29 ^ 2 * (31 * (7723 * (132896956044521568488119 *
            255515944373312847190720520512484175977)))))) := by norm_num
      rw [hfac] at hdvd
      rcases hq.dvd_mul.mp hdvd with h | h
      · exact Or.inl (prime_eq_of_dvd_prime hq Nat.prime_two h)
      rcases hq.dvd_mul.mp h with h | h
      · exact Or.inr (Or.inl (prime_eq_of_dvd_prime hq Nat.prime_three h))
      rcases hq.dvd_mul.mp h with h | h
      · exact Or.inr (Or.inr (Or.inl (prime_eq_of_dvd_prime hq (by norm_num) h)))
      rcases hq.dvd_mul.mp h with h | h
      · exact Or.inr (Or.inr (Or.inr (Or.inl (prime_dvd_pow_cases hq (by norm_num) h))))
      rcases hq.dvd_mul.mp h with h | h
      · exact Or.inr (Or.inr (Or.inr (Or.inr (Or.inl
          (prime_eq_of_dvd_prime hq (by norm_num) h)))))
      rcases hq.dvd_mul.mp h with h | h
      · exact Or.inr (Or.inr (Or.inr (Or.inr (Or.inr (Or.inl
          (prime_eq_of_dvd_prime hq (by norm_num) h))))))
      rcases hq.dvd_mul.mp h with h | h
      · exact Or.inr (Or.inr (Or.inr (Or.inr (Or.inr (Or.inr (Or.inl
          (prime_eq_of_dvd_prime hq prime_132896956044521568488119 h)))))))
      · exact Or.inr (Or.inr (Or.inr (Or.inr (Or.inr (Or.inr (Or.inr
          (prime_eq_of_dvd_prime hq prime_255515944373312847190720520512484175977
            h)))))))
    rcases hc with rfl | rfl | rfl | rfl | rfl | rfl | rfl | rfl <;> decide

set_option maxRecDepth 10000 in
/-- The secp256k1 field prime `p = 2^256 - 2^32 - 977` is prime. -/
theorem p_prime : Nat.Prime S256Field.prime := by
  show Nat.Prime
    115792089237316195423570985008687907853269984665640564039457584007908834671663
  apply lucas_cert
    115792089237316195423570985008687907853269984665640564039457584007908834671663 3
    (by norm_num)
  · decide
  · intro q hq hdvd
    have hc : q = 2 ∨ q = 3 ∨ q = 7 ∨ q = 13441 ∨
        q = 205115282021455665897114700593932402728804164701536103180137503955397371 := by
      have hfac :
          (115792089237316195423570985008687907853269984665640564039457584007908834671663 :
            Nat) - 1 =
          2 * (3 * (7 * (13441 *
            205115282021455665897114700593932402728804164701536103180137503955397371))) := by
        norm_num
      rw [hfac] at hdvd
      rcases hq.dvd_mul.mp hdvd with h | h
      · exact Or.inl (prime_eq_of_dvd_prime hq Nat.prime_two h)
      rcases hq.dvd_mul.mp h with h | h
      · exact Or.inr (Or.inl (prime_eq_of_dvd_prime hq Nat.prime_three h))
      rcases hq.dvd_mul.mp h with h | h
      · exact Or.inr (Or.inr (Or.inl (prime_eq_of_dvd_prime hq (by norm_num) h)))
      rcases hq.dvd_mul.mp h with h | h
      · exact Or.inr (Or.inr (Or.inr (Or.inl (prime_eq_of_dvd_prime hq (by norm_num) h))))
      · exact Or.inr (Or.inr (Or.inr (Or.inr (prime_eq_of_dvd_prime hq prime_F_205 h))))
    rcases hc with rfl | rfl | rfl | rfl | rfl <;> decide

theorem S256Field.prime_pos : 0 < S256Field.prime := by decide

namespace S256Field

theorem add_num_lt (a b : S256Field) : (a.add b).num < prime :=
  Nat.mod_lt _ prime_pos

theorem sub_num_lt (a b : S256Field) : (a.sub b).num < prime := by
  rw [sub]
  by_cases h1 : b.num ≤ a.num
  · rw [if_pos h1]
    exact Nat.mod_lt _ prime_pos
  · rw [if_neg h1]
    by_cases h2 : (b.num - a.num) % prime = 0
    · rw [if_pos h2]
      exact prime_pos
    · rw [if_neg h2]
      exact Nat.sub_lt prime_pos (Nat.pos_of_ne_zero h2)

theorem mul_num_lt (a b : S256Field) : (a.mul b).num < prime :=
  Nat.mod_lt _ prime_pos

theorem div_num_lt (a b : S256Field) : (a.div b).num < prime :=
  Nat.mod_lt _ prime_pos

theorem pow_num_lt (a : S256Field) (e : Int) : (a.pow e).num < prime :=
  powModAux_lt _ _ _ _ prime_pos

theorem sqrt_num_lt (a : S256Field) : (a.sqrt).num < prime :=
  powModAux_lt _ _ _ _ prime_pos

end S256Field

theorem toBE_length (n v : Nat) : (toBE n v).length = n := by
  induction n generalizing v with
  | zero => rfl
  | succ m ih => simp [toBE, ih]

theorem fromBE_append_singleton (l : List Nat) (b : Nat) :
    fromBE (l ++ [b]) = fromBE l * 256 + b := by
  simp [fromBE, List.foldl_append]

theorem fromBE_toBE (n v : Nat) (h : v < 256 ^ n) : fromBE (toBE n v) = v := by
  induction n generalizing v with
  | zero =>
    interval_cases v
    rfl
  | succ m ih =>
    rw [toBE, fromBE_append_singleton, ih (v / 256) (by
      rw [pow_succ] at h
      omega)]
    omega

/-! ## The field embedding into `ZMod prime`

`φ` maps an `S256Field` representative to its residue class; on representatives below
`prime` (which every arithmetic operation produces) it is injective, and it turns the
code's operations into the field operations of `ZMod prime`. -/

theorem phi_natCast_inj {a b : Nat} (ha : a < S256Field.prime) (hb : b < S256Field.prime)
    (h : (a : ZMod S256Field.prime) = (b : ZMod S256Field.prime)) : a = b := by
  rw [ZMod.natCast_eq_natCast_iff', Nat.mod_eq_of_lt ha, Nat.mod_eq_of_lt hb] at h
  exact h

theorem phi_eq_iff {a b : S256Field} (ha : a.num < S256Field.prime)
    (hb : b.num < S256Field.prime) : φ a = φ b ↔ a = b := by
  constructor
  · intro h
    cases a
    cases b
    simpa using phi_natCast_inj ha hb h
  · intro h
    rw [h]

theorem phi_add (a b : S256Field) : φ (a.add b) = φ a + φ b := by
  rw [φ, S256Field.add, ZMod.natCast_mod, Nat.cast_add]
  rfl

theorem phi_mul (a b : S256Field) : φ (a.mul b) = φ a * φ b := by
  rw [φ, S256Field.mul, ZMod.natCast_mod, Nat.cast_mul]
  rfl

theorem phi_sub (a b : S256Field) : φ (a.sub b) = φ a - φ b := by
  rw [φ, S256Field.sub]
  by_cases h1 : b.num ≤ a.num
  · rw [if_pos h1]
    show (((a.num - b.num) % S256Field.prime : Nat) : ZMod S256Field.prime) = _
    rw [ZMod.natCast_mod, Nat.cast_sub h1]
    rfl
  · rw [if_neg h1]
    have hba : a.num ≤ b.num := le_of_not_le h1
    by_cases h2 : (b.num - a.num) % S256Field.prime = 0
    · have hdvd : ((b.num - a.num : Nat) : ZMod S256Field.prime) = 0 := by
        rw [← ZMod.natCast_mod, h2, Nat.cast_zero]
      rw [Nat.cast_sub hba] at hdvd
      rw [if_pos h2]
      show ((0 : Nat) : ZMod S256Field.prime) = _
      rw [Nat.cast_zero]
      have : (b.num : ZMod S256Field.prime) = a.num := by
        have := sub_eq_zero.mp hdvd
        exact this
      rw [φ, φ, this, sub_self]
    · rw [if_neg h2]
      show ((S256Field.prime - (b.num - a.num) % S256Field.prime : Nat) :
        ZMod S256Field.prime) = _
      have hle : (b.num - a.num) % S256Field.prime ≤ S256Field.prime :=
        le_of_lt (Nat.mod_lt _ S256Field.prime_pos)
      rw [Nat.cast_sub hle, ZMod.natCast_mod, ZMod.natCast_self, Nat.cast_sub hba, zero_sub,
        neg_sub]
      rfl

theorem prime_sub_one_lt : S256Field.prime - 1 < 2 ^ 256 := by decide

/-- Computes `pow` at a small non-negative exponent (the code uses `2` and `3`). -/
theorem phi_pow_small (a : S256Field) (k : Nat) (hk2 : (k : Int) < S256Field.prime - 1)
    (hk3 : k < 2 ^ 256) : φ (a.pow (k : Int)) = φ a ^ k := by
  rw [S256Field.pow]
  have hneg : ¬ (k : Int) < 0 := not_lt.mpr (Int.natCast_nonneg k)
  rw [if_neg hneg]
  simp only [Int.toNat_natCast]
  have hmod : k % (S256Field.prime - 1) = k := by
    apply Nat.mod_eq_of_lt
    have := hk2
    omega
  rw [hmod]
  show ((u256_modpow a.num k S256Field.prime : Nat) : ZMod S256Field.prime) = _
  rw [u256_modpow_eq a.num k _ hk3, ZMod.natCast_mod, Nat.cast_pow]
  rfl

theorem phi_pow_two (a : S256Field) : φ (a.pow 2) = φ a ^ 2 := by
  have := phi_pow_small a 2 (by decide) (by norm_num)
  simpa using this

theorem phi_pow_three (a : S256Field) : φ (a.pow 3) = φ a ^ 3 := by
  have := phi_pow_small a 3 (by decide) (by norm_num)
  simpa using this

theorem phi_sqrt (a : S256Field) :
    φ a.sqrt = φ a ^ ((S256Field.prime + 1) / 4) := by
  rw [φ, S256Field.sqrt]
  show ((u256_modpow a.num ((S256Field.prime + 1) / 4) S256Field.prime : Nat) :
    ZMod S256Field.prime) = _
  rw [u256_modpow_eq a.num _ _ (by decide), ZMod.natCast_mod, Nat.cast_pow]
  rfl

/-- In a finite prime field, `a ^ (p - 2)` is the inverse (with `0⁻¹ = 0`). -/
theorem zmod_pow_card_sub_two {p : Nat} [Fact p.Prime] (hp2 : 2 < p) (a : ZMod p) :
    a ^ (p - 2) = a⁻¹ := by
  by_cases ha : a = 0
  · subst ha
    rw [zero_pow (by omega : p - 2 ≠ 0), inv_zero]
  · have h1 : a ^ (p - 2) * a = 1 := by
      rw [← pow_succ]
      have he : p - 2 + 1 = p - 1 := by omega
      rw [he]
      exact ZMod.pow_card_sub_one_eq_one ha
    exact eq_inv_of_mul_eq_one_right (by rwa [mul_comm] at h1)

theorem phi_div (hp : Nat.Prime S256Field.prime) (a b : S256Field) :
    φ (a.div b) = φ a * (φ b)⁻¹ := by
  haveI : Fact (Nat.Prime S256Field.prime) := ⟨hp⟩
  rw [φ, S256Field.div]
  show ((a.num * u256_modpow b.num (S256Field.prime - 2) S256Field.prime %
    S256Field.prime : Nat) : ZMod S256Field.prime) = _
  rw [ZMod.natCast_mod, Nat.cast_mul,
    u256_modpow_eq b.num _ _ (by decide), ZMod.natCast_mod, Nat.cast_pow,
    zmod_pow_card_sub_two (by decide)]
  rfl

theorem zmod_small_ne_zero (c : Nat) (hc : 0 < c) (hlt : c < S256Field.prime) :
    ((c : Nat) : ZMod S256Field.prime) ≠ 0 := by
  intro h0
  rw [ZMod.natCast_zmod_eq_zero_iff_dvd] at h0
  have := Nat.le_of_dvd hc h0
  omega

/-! ## secp256k1 as a Mathlib Weierstrass curve -/

theorem W_equation_iff (x y : ZMod S256Field.prime) :
    W.Equation x y ↔ y ^ 2 = x ^ 3 + 7 := by
  rw [WeierstrassCurve.Affine.equation_iff]
  show y ^ 2 + 0 * x * y + 0 * y = x ^ 3 + 0 * x ^ 2 + 0 * x + 7 ↔ _
  constructor <;> intro h <;> linear_combination h

theorem W_negY (x y : ZMod S256Field.prime) : W.negY x y = -y := by
  show -y - 0 * x - 0 = -y
  ring

/-- Every affine point satisfying the equation is nonsingular (`p > 3` and the curve
has nonzero discriminant). -/
theorem W_nonsingular_of_equation (hp : Nat.Prime S256Field.prime)
    {x y : ZMod S256Field.prime} (h : W.Equation x y) : W.Nonsingular x y := by
  haveI : Fact (Nat.Prime S256Field.prime) := ⟨hp⟩
  rw [WeierstrassCurve.Affine.nonsingular_iff]
  refine ⟨h, ?_⟩
  show 0 * y ≠ 3 * x ^ 2 + 2 * 0 * x + 0 ∨ y ≠ -y - 0 * x - 0
  by_contra hc
  push_neg at hc
  obtain ⟨h1, h2⟩ := hc
  have h3 : (3 : ZMod S256Field.prime) * x ^ 2 = 0 := by linear_combination -h1
  have h2y : (2 : ZMod S256Field.prime) * y = 0 := by linear_combination h2
  have h3ne : ((3 : Nat) : ZMod S256Field.prime) ≠ 0 := zmod_small_ne_zero 3 (by omega) (by decide)
  have h2ne : ((2 : Nat) : ZMod S256Field.prime) ≠ 0 := zmod_small_ne_zero 2 (by omega) (by decide)
  push_cast at h3ne h2ne
  have hx : x = 0 := by
    rcases mul_eq_zero.mp h3 with h' | h'
    · exact absurd h' h3ne
    · exact pow_eq_zero_iff (n := 2) (by omega) |>.mp h'
  have hy : y = 0 := by
    rcases mul_eq_zero.mp h2y with h' | h'
    · exact absurd h' h2ne
    · exact h'
  rw [W_equation_iff, hx, hy] at h
  have h7 : ((7 : Nat) : ZMod S256Field.prime) = 0 := by
    push_cast
    linear_combination -h
  exact zmod_small_ne_zero 7 (by omega) (by decide) h7

theorem phi_ec_a : φ S256Point.ec_a = 0 := by
  show ((0 : Nat) : ZMod S256Field.prime) = 0
  rw [Nat.cast_zero]

theorem phi_ec_b : φ S256Point.ec_b = 7 := by
  show ((7 : Nat) : ZMod S256Field.prime) = 7
  push_cast
  rfl

/-- The membership check of `S256Point::new` holds exactly when the residues satisfy
the curve equation. -/
theorem new_check_iff (x y : S256Field) :
    y.pow 2 = ((x.pow 3).add (S256Point.ec_a.mul x)).add S256Point.ec_b ↔
      φ y ^ 2 = φ x ^ 3 + 7 := by
  rw [← phi_eq_iff (S256Field.pow_num_lt y 2) (S256Field.add_num_lt _ _),
    phi_pow_two, phi_add, phi_add, phi_mul, phi_pow_three, phi_ec_a, phi_ec_b,
    zero_mul, add_zero]

theorem new_eq_some_iff (x y : S256Field) :
    S256Point.new x y = some (S256Point.normalPoint x y) ↔ φ y ^ 2 = φ x ^ 3 + 7 := by
  rw [S256Point.new]
  constructor
  · intro h
    by_contra hne
    rw [if_neg (fun he => hne ((new_check_iff x y).mp he))] at h
    cases h
  · intro h
    rw [if_pos ((new_check_iff x y).mpr h)]

theorem new_inv {x y : S256Field} {p : S256Point}
    (h : S256Point.new x y = some p) :
    p = S256Point.normalPoint x y ∧ φ y ^ 2 = φ x ^ 3 + 7 := by
  rw [S256Point.new] at h
  by_cases hc : y.pow 2 = ((x.pow 3).add (S256Point.ec_a.mul x)).add S256Point.ec_b
  · rw [if_pos hc] at h
    cases h
    exact ⟨rfl, (new_check_iff x y).mp hc⟩
  · rw [if_neg hc] at h
    cases h

/-- Since `prime ≡ 3 (mod 4)`, the candidate square root `(y²)^((p+1)/4)` of a square
is `y` or `-y`. -/
theorem sqrt_of_sq (hp : Nat.Prime S256Field.prime) (y : ZMod S256Field.prime) :
    (y ^ 2) ^ ((S256Field.prime + 1) / 4) = y ∨
      (y ^ 2) ^ ((S256Field.prime + 1) / 4) = -y := by
  haveI : Fact (Nat.Prime S256Field.prime) := ⟨hp⟩
  by_cases hy : y = 0
  · subst hy
    left
    rw [zero_pow (two_ne_zero), zero_pow (by decide : (S256Field.prime + 1) / 4 ≠ 0)]
  · have hpow : (y ^ 2) ^ ((S256Field.prime + 1) / 4) =
        y ^ ((S256Field.prime - 1) / 2) * y := by
      have h1 : 2 * ((S256Field.prime + 1) / 4) = (S256Field.prime - 1) / 2 + 1 := by
        decide
      rw [← pow_mul, h1, pow_succ]
    have hfermat : y ^ ((S256Field.prime - 1) / 2) * y ^ ((S256Field.prime - 1) / 2) = 1 := by
      rw [← pow_add]
      have he : (S256Field.prime - 1) / 2 + (S256Field.prime - 1) / 2 =
          S256Field.prime - 1 := by decide
      rw [he]
      exact ZMod.pow_card_sub_one_eq_one hy
    rcases mul_self_eq_one_iff.mp hfermat with h1 | h1
    · left
      rw [hpow, h1, one_mul]
    · right
      rw [hpow, h1, neg_one_mul]

theorem take_append_left (a b : List Nat) (n : Nat) (h : a.length = n) :
    (a ++ b).take n = a := by
  subst h
  exact List.take_left a b

theorem drop_append_left (a b : List Nat) (n : Nat) (h : a.length = n) :
    (a ++ b).drop n = b := by
  subst h
  exact List.drop_left a b

/-- SEC round trip, both compressed and uncompressed, for every valid affine point,
parameterized over the primality of `prime`. -/
theorem sec_roundtrip_aux (hp : Nat.Prime S256Field.prime) (x y : S256Field)
    (hx : x.num < S256Field.prime) (hy : y.num < S256Field.prime) (p : S256Point)
    (hnew : S256Point.new x y = some p) :
    p.compressed_sec.bind S256Point.parse_sec = some p ∧
      p.sec.bind S256Point.parse_sec = some p := by
  obtain ⟨rfl, heq⟩ := new_inv hnew
  have hx256 : x.num < 256 ^ 32 := lt_trans hx (by norm_num [S256Field.prime])
  have hy256 : y.num < 256 ^ 32 := lt_trans hy (by norm_num [S256Field.prime])
  have hxlen : (toBE 32 x.num).length = 32 := toBE_length 32 x.num
  have hylen : (toBE 32 y.num).length = 32 := toBE_length 32 y.num
  have hxrec : S256Field.new (fromBE (toBE 32 x.num)) = x := by
    rw [fromBE_toBE 32 x.num hx256]
    rfl
  constructor
  · -- compressed
    have hcomp : (S256Point.normalPoint x y).compressed_sec =
        some ((if y.num % 2 = 0 then 2 else 3) :: toBE 32 x.num) := by
      simp [S256Point.compressed_sec, S256Point.coordinate]
    rw [hcomp, Option.some_bind]
    have hlen : ((if y.num % 2 = 0 then 2 else 3) :: toBE 32 x.num).length = 33 := by
      simp [hxlen]
    rw [S256Point.parse_sec, hlen, if_neg (by omega)]
    have hhead : ((if y.num % 2 = 0 then 2 else 3) :: toBE 32 x.num).headI =
        (if y.num % 2 = 0 then 2 else 3) := rfl
    have hne4 : ((if y.num % 2 = 0 then 2 else 3) : Nat) ≠ 4 := by
      split <;> omega
    rw [hhead, if_neg hne4]
    have hdrop : ((if y.num % 2 = 0 then 2 else 3) :: toBE 32 x.num).drop 1 =
        toBE 32 x.num := rfl
    have htake : (toBE 32 x.num).take 32 = toBE 32 x.num :=
      List.take_of_length_le (le_of_eq hxlen)
    -- the square root analysis
    set beta := ((x.pow 3).add S256Point.ec_b).sqrt with hbeta
    have hblt : beta.num < S256Field.prime := S256Field.sqrt_num_lt _
    have hphib : φ beta = (φ y ^ 2) ^ ((S256Field.prime + 1) / 4) := by
      rw [hbeta, phi_sqrt, phi_add, phi_pow_three, phi_ec_b, ← heq]
    have hbcases : beta = y ∨ (y.num ≠ 0 ∧ beta.num = S256Field.prime - y.num) := by
      rcases sqrt_of_sq hp (φ y) with hc | hc
      · left
        have : φ beta = φ y := by rw [hphib, hc]
        exact (phi_eq_iff hblt hy).mp this
      · by_cases hy0 : y.num = 0
        · left
          have hyz : φ y = 0 := by
            show ((y.num : Nat) : ZMod S256Field.prime) = 0
            rw [hy0, Nat.cast_zero]
          have : φ beta = φ y := by rw [hphib, hc, hyz, neg_zero]
          exact (phi_eq_iff hblt hy).mp this
        · right
          refine ⟨hy0, ?_⟩
          have hcast : ((S256Field.prime - y.num : Nat) : ZMod S256Field.prime) = - φ y := by
            rw [Nat.cast_sub (le_of_lt hy), ZMod.natCast_self, zero_sub]
            rfl
          have : φ beta = ((S256Field.prime - y.num : Nat) : ZMod S256Field.prime) := by
            rw [hphib, hc, hcast]
          exact phi_natCast_inj hblt (by omega) this
    have hpodd : S256Field.prime % 2 = 1 := by decide
    rw [hdrop, htake, hxrec]
    dsimp only
    rw [← hbeta]
    rcases hbcases with hby | ⟨hy0, hbnum⟩
    · by_cases hyev : y.num % 2 = 0
      · rw [if_pos (by rw [if_pos hyev] : (if y.num % 2 = 0 then (2 : Nat) else 3) = 2),
          if_pos (show beta.num % 2 = 0 by rw [hby]; exact hyev)]
        rw [hby]
        exact hnew
      · rw [if_neg (show ¬ (if y.num % 2 = 0 then (2 : Nat) else 3) = 2 by
            rw [if_neg hyev]; omega),
          if_neg (show ¬ beta.num % 2 = 0 by rw [hby]; exact hyev)]
        rw [hby]
        exact hnew
    · by_cases hyev : y.num % 2 = 0
      · have hbodd : ¬ beta.num % 2 = 0 := by omega
        rw [if_pos (by rw [if_pos hyev] : (if y.num % 2 = 0 then (2 : Nat) else 3) = 2),
          if_neg hbodd]
        have hyn : S256Field.prime - beta.num = y.num := by omega
        rw [hyn]
        exact hnew
      · have hbev : beta.num % 2 = 0 := by omega
        rw [if_neg (show ¬ (if y.num % 2 = 0 then (2 : Nat) else 3) = 2 by
            rw [if_neg hyev]; omega),
          if_pos hbev]
        have hyn : S256Field.prime - beta.num = y.num := by omega
        rw [hyn]
        exact hnew
  · -- uncompressed
    have hsec : (S256Point.normalPoint x y).sec =
        some (4 :: (toBE 32 x.num ++ toBE 32 y.num)) := by
      simp [S256Point.sec, S256Point.coordinate]
    rw [hsec, Option.some_bind]
    have hlen : (4 :: (toBE 32 x.num ++ toBE 32 y.num)).length = 65 := by
      simp [hxlen, hylen]
    rw [S256Point.parse_sec, hlen, if_neg (by omega)]
    have hhead : (4 :: (toBE 32 x.num ++ toBE 32 y.num)).headI = 4 := rfl
    rw [hhead, if_pos rfl, if_neg (by omega)]
    have hdrop1 : (4 :: (toBE 32 x.num ++ toBE 32 y.num)).drop 1 =
        toBE 32 x.num ++ toBE 32 y.num := rfl
    have htakex : (toBE 32 x.num ++ toBE 32 y.num).take 32 = toBE 32 x.num :=
      take_append_left _ _ _ hxlen
    have hdrop33 : (4 :: (toBE 32 x.num ++ toBE 32 y.num)).drop 33 =
        toBE 32 y.num := by
      have h1 : (4 :: (toBE 32 x.num ++ toBE 32 y.num)).drop 33 =
          (toBE 32 x.num ++ toBE 32 y.num).drop 32 := List.drop_succ_cons
      rw [h1]
      exact drop_append_left _ _ _ hxlen
    have htakey : (toBE 32 y.num).take 32 = toBE 32 y.num :=
      List.take_of_length_le (le_of_eq hylen)
    rw [hdrop1, htakex, hdrop33, htakey, hxrec]
    have hyrec : S256Field.new (fromBE (toBE 32 y.num)) = y := by
      rw [fromBE_toBE 32 y.num hy256]
      rfl
    rw [hyrec]
    exact hnew

theorem S256Point.n_pos : 0 < S256Point.n := by decide

/-- Every result of the candidate loop of `deterministic_k` lies in `[1, n)`. -/
theorem PrivateKey.detKLoop_mem (hmac : List Nat → List Nat → List Nat) :
    ∀ (fuel : Nat) (k v : List Nat) (c : Nat),
      PrivateKey.detKLoop hmac k v fuel = some c → 1 ≤ c ∧ c < S256Point.n := by
  intro fuel
  induction fuel with
  | zero => intro k v c h; simp [PrivateKey.detKLoop] at h
  | succ f ih =>
    intro k v c h
    rw [PrivateKey.detKLoop] at h
    split at h
    · cases h
      assumption
    · exact ih _ _ _ h

/-- Every result of `deterministic_k` lies in `[1, n)`. -/
theorem PrivateKey.deterministic_k_mem (hmac : List Nat → List Nat → List Nat)
    (pk : PrivateKey) (z fuel c : Nat)
    (h : PrivateKey.deterministic_k hmac pk z fuel = some c) :
    1 ≤ c ∧ c < S256Point.n :=
  PrivateKey.detKLoop_mem hmac fuel _ _ c h

/-- When the nonce is already `≤ n`, the random-resampling loop returns it unchanged
(whenever it has fuel to run at all), independently of the random stream. -/
theorem PrivateKey.whileRandom_of_not_gt (rand : Nat → Nat) (k i fuel : Nat)
    (hk : ¬ k > S256Point.n) (hf : fuel ≠ 0) :
    PrivateKey.whileRandom rand k i fuel = some k := by
  cases fuel with
  | zero => exact absurd rfl hf
  | succ f => rw [PrivateKey.whileRandom, if_neg hk]

/-! ## Bridge between the code's point arithmetic and the Mathlib group

`Rel p P` relates a point value of the code to a nonsingular Mathlib point carrying
the same coordinates. `add_bridge` shows that the code's chord-and-tangent `Add`
implementation computes the Mathlib group operation (and in particular never panics on
valid operands), and `mulLoop_bridge` extends this to the double-and-add loop. -/

theorem point_some_ext {x₁ y₁ x₂ y₂ : ZMod S256Field.prime}
    (h₁ : W.Nonsingular x₁ y₁) (h₂ : W.Nonsingular x₂ y₂) (hx : x₁ = x₂)
    (hy : y₁ = y₂) :
    WeierstrassCurve.Affine.Point.some h₁ = WeierstrassCurve.Affine.Point.some h₂ := by
  subst hx
  subst hy
  rfl

theorem phi_zero_iff {y : S256Field} (hy : y.num < S256Field.prime) :
    φ y = 0 ↔ y.num = 0 := by
  constructor
  · intro h
    exact phi_natCast_inj hy S256Field.prime_pos (by rw [Nat.cast_zero]; exact h)
  · intro h
    show ((y.num : Nat) : ZMod S256Field.prime) = 0
    rw [h, Nat.cast_zero]

theorem phi_new_const (c : Nat) :
    φ (S256Field.new c) = ((c : Nat) : ZMod S256Field.prime) :=
  rfl

theorem W_addX_simp (x₁ x₂ L : ZMod S256Field.prime) :
    W.addX x₁ x₂ L = L ^ 2 - x₁ - x₂ := by
  show L ^ 2 + 0 * L - 0 - x₁ - x₂ = L ^ 2 - x₁ - x₂
  ring

theorem W_addY_simp (x₁ x₂ y₁ L : ZMod S256Field.prime) :
    W.addY x₁ x₂ y₁ L = L * (x₁ - W.addX x₁ x₂ L) - y₁ := by
  show -(L * (W.addX x₁ x₂ L - x₁) + y₁) - 0 * W.addX x₁ x₂ L - 0 = _
  ring

theorem W_slope_tangent [Fact (Nat.Prime S256Field.prime)]
    {x y : ZMod S256Field.prime} (hyne : y ≠ W.negY x y) :
    W.slope x x y y = 3 * x ^ 2 / (2 * y) := by
  rw [WeierstrassCurve.Affine.slope_of_Y_ne rfl hyne, W_negY]
  show (3 * x ^ 2 + 2 * 0 * x + 0 - 0 * y) / (y - -y) = _
  congr 1
  · ring
  · ring

theorem W_slope_chord [Fact (Nat.Prime S256Field.prime)]
    {x₁ x₂ y₁ y₂ : ZMod S256Field.prime} (hx : x₁ ≠ x₂) :
    W.slope x₁ x₂ y₁ y₂ = (y₂ - y₁) * (x₂ - x₁)⁻¹ := by
  rw [WeierstrassCurve.Affine.slope_of_X_ne hx, div_eq_mul_inv,
    show y₁ - y₂ = -(y₂ - y₁) by ring, show x₁ - x₂ = -(x₂ - x₁) by ring,
    inv_neg, neg_mul_neg]

theorem phi_ne_negY_of_num_ne_zero [Fact (Nat.Prime S256Field.prime)] {x y : S256Field}
    (hy : y.num < S256Field.prime) (hy0 : y.num ≠ 0) :
    φ y ≠ W.negY (φ x) (φ y) := by
  rw [W_negY]
  intro hcon
  have h2y : (2 : ZMod S256Field.prime) * φ y = 0 := by
    linear_combination hcon
  rcases mul_eq_zero.mp h2y with h' | h'
  · have h2ne : ((2 : Nat) : ZMod S256Field.prime) ≠ 0 :=
      zmod_small_ne_zero 2 (by omega) (by decide)
    push_cast at h2ne
    exact h2ne h'
  · exact hy0 ((phi_zero_iff hy).mp h')

/-- The tangent block computes the Mathlib doubling and never panics. -/
theorem doubleAux_rel [Fact (Nat.Prime S256Field.prime)] {x y : S256Field}
    (hx : x.num < S256Field.prime) (hy : y.num < S256Field.prime)
    (hns : W.Nonsingular (φ x) (φ y)) (hy0 : y.num ≠ 0) :
    ∃ r, S256Point.doubleAux x y = some r ∧
      Rel r (WeierstrassCurve.Affine.Point.some hns +
        WeierstrassCurve.Affine.Point.some hns) := by
  have hyne : φ y ≠ W.negY (φ x) (φ y) := phi_ne_negY_of_num_ne_zero hy hy0
  set s := (((S256Field.new 3).mul (x.pow 2)).add S256Point.ec_a).div
    ((S256Field.new 2).mul y) with hsdef
  set retx := (s.pow 2).sub ((S256Field.new 2).mul x) with hretxdef
  set rety := (s.mul (x.sub retx)).sub y with hretydef
  set L := W.slope (φ x) (φ x) (φ y) (φ y) with hLdef
  have hsphi : φ s = L := by
    rw [hsdef, hLdef, W_slope_tangent hyne, phi_div Fact.out, phi_add, phi_mul,
      phi_pow_two, phi_mul, phi_new_const, phi_new_const, phi_ec_a, div_eq_mul_inv]
    push_cast
    ring
  have hXphi : φ retx = W.addX (φ x) (φ x) L := by
    rw [hretxdef, W_addX_simp, phi_sub, phi_pow_two, phi_mul, phi_new_const, hsphi]
    push_cast
    ring
  have hYphi : φ rety = W.addY (φ x) (φ x) (φ y) L := by
    rw [hretydef, W_addY_simp, phi_sub, phi_mul, phi_sub, hsphi, hXphi]
  have hnsum := WeierstrassCurve.Affine.nonsingular_add hns hns (fun _ => hyne)
  rw [← hLdef] at hnsum
  have hns2 : W.Nonsingular (φ retx) (φ rety) := by
    rw [hXphi, hYphi]
    exact hnsum
  have hnewsome : S256Point.new retx rety = some (S256Point.normalPoint retx rety) := by
    rw [new_eq_some_iff]
    have h1 := hns2.1
    rw [W_equation_iff] at h1
    exact h1
  refine ⟨S256Point.normalPoint retx rety, ?_, ?_⟩
  · show S256Point.new retx rety = _
    exact hnewsome
  · rw [WeierstrassCurve.Affine.Point.add_of_Y_ne hyne]
    have hpt : WeierstrassCurve.Affine.Point.some
        (WeierstrassCurve.Affine.nonsingular_add hns hns fun _ => hyne) =
        WeierstrassCurve.Affine.Point.some hns2 := by
      apply point_some_ext
      · rw [hXphi, hLdef]
      · rw [hYphi, hLdef]
    rw [hpt]
    exact Rel.affine (S256Field.sub_num_lt _ _) (S256Field.sub_num_lt _ _) hns2

/-- The chord block computes the Mathlib addition of points with distinct abscissae
and never panics. -/
theorem chordAux_rel [Fact (Nat.Prime S256Field.prime)] {x y rx ry : S256Field}
    (hx : x.num < S256Field.prime) (hy : y.num < S256Field.prime)
    (hrx : rx.num < S256Field.prime) (hry : ry.num < S256Field.prime)
    (hns : W.Nonsingular (φ x) (φ y)) (hns' : W.Nonsingular (φ rx) (φ ry))
    (hxe : φ x ≠ φ rx) :
    ∃ r, S256Point.chordAux x y rx ry = some r ∧
      Rel r (WeierstrassCurve.Affine.Point.some hns +
        WeierstrassCurve.Affine.Point.some hns') := by
  set s := (ry.sub y).div (rx.sub x) with hsdef
  set retx := ((s.pow 2).sub x).sub rx with hretxdef
  set rety := (s.mul (x.sub retx)).sub y with hretydef
  set L := W.slope (φ x) (φ rx) (φ y) (φ ry) with hLdef
  have hsphi : φ s = L := by
    rw [hsdef, hLdef, W_slope_chord hxe, phi_div Fact.out, phi_sub, phi_sub]
  have hXphi : φ retx = W.addX (φ x) (φ rx) L := by
    rw [hretxdef, W_addX_simp, phi_sub, phi_sub, phi_pow_two, hsphi]
  have hYphi : φ rety = W.addY (φ x) (φ rx) (φ y) L := by
    rw [hretydef, W_addY_simp, phi_sub, phi_mul, phi_sub, hsphi, hXphi]
  have hnsum := WeierstrassCurve.Affine.nonsingular_add hns hns'
    (fun h => absurd h hxe)
  rw [← hLdef] at hnsum
  have hns2 : W.Nonsingular (φ retx) (φ rety) := by
    rw [hXphi, hYphi]
    exact hnsum
  have hnewsome : S256Point.new retx rety = some (S256Point.normalPoint retx rety) := by
    rw [new_eq_some_iff]
    have h1 := hns2.1
    rw [W_equation_iff] at h1
    exact h1
  refine ⟨S256Point.normalPoint retx rety, ?_, ?_⟩
  · show S256Point.new retx rety = _
    exact hnewsome
  · rw [WeierstrassCurve.Affine.Point.add_of_X_ne hxe]
    have hpt : WeierstrassCurve.Affine.Point.some
        (WeierstrassCurve.Affine.nonsingular_add hns hns' fun h => absurd h hxe) =
        WeierstrassCurve.Affine.Point.some hns2 := by
      apply point_some_ext
      · rw [hXphi, hLdef]
      · rw [hYphi, hLdef]
    rw [hpt]
    exact Rel.affine (S256Field.sub_num_lt _ _) (S256Field.sub_num_lt _ _) hns2

/-- The chord-and-tangent `Add` of the code computes the Mathlib group law and never
panics on related (valid) operands. -/
theorem add_bridge [Fact (Nat.Prime S256Field.prime)] {p q : S256Point}
    {P Q : W.Point} (hP : Rel p P) (hQ : Rel q Q) :
    ∃ r : S256Point, S256Point.add p q = some r ∧ Rel r (P + Q) := by
  cases hP with
  | inf =>
    cases hQ with
    | inf =>
      exact ⟨S256Point.infPoint, rfl, by rw [zero_add]; exact Rel.inf⟩
    | affine hrx hry hns' =>
      exact ⟨_, rfl, by rw [zero_add]; exact Rel.affine hrx hry hns'⟩
  | @affine x y hx hy hns =>
    cases hQ with
    | inf =>
      exact ⟨_, rfl, by rw [add_zero]; exact Rel.affine hx hy hns⟩
    | @affine rx ry hrx hry hns' =>
      have heq1 : W.Equation (φ x) (φ y) := hns.1
      have heq2 : W.Equation (φ rx) (φ ry) := hns'.1
      have hstep : S256Point.add (S256Point.normalPoint x y)
          (S256Point.normalPoint rx ry) =
          (if x = rx then
            if y = ry then
              if y.num = 0 then some S256Point.inf else S256Point.doubleAux x y
            else some S256Point.inf
          else S256Point.chordAux x y rx ry) := rfl
      by_cases hxe : x = rx
      · subst hxe
        by_cases hye : y = ry
        · subst hye
          by_cases hy0 : y.num = 0
          · refine ⟨S256Point.infPoint, ?_, ?_⟩
            · rw [hstep, if_pos rfl, if_pos rfl, if_pos hy0]
              rfl
            · have hzero : φ y = 0 := (phi_zero_iff hy).mpr hy0
              rw [WeierstrassCurve.Affine.Point.add_of_Y_eq rfl
                (by rw [W_negY, hzero, neg_zero])]
              exact Rel.inf
          · obtain ⟨r, hr, hrel⟩ := doubleAux_rel hx hy hns hy0
            refine ⟨r, ?_, ?_⟩
            · rw [hstep, if_pos rfl, if_pos rfl, if_neg hy0]
              exact hr
            · have hsame : WeierstrassCurve.Affine.Point.some hns +
                  WeierstrassCurve.Affine.Point.some hns' =
                  WeierstrassCurve.Affine.Point.some hns +
                  WeierstrassCurve.Affine.Point.some hns := by
                congr 1
              rw [hsame]
              exact hrel
        · refine ⟨S256Point.infPoint, ?_, ?_⟩
          · rw [hstep, if_pos rfl, if_neg hye]
            rfl
          · have hyy : φ y = φ ry ∨ φ y = W.negY (φ x) (φ ry) :=
              WeierstrassCurve.Affine.Y_eq_of_X_eq heq1 heq2 rfl
            have hphine : φ y ≠ φ ry := fun hcon => hye ((phi_eq_iff hy hry).mp hcon)
            have hneg : φ y = W.negY (φ x) (φ ry) := hyy.resolve_left hphine
            rw [WeierstrassCurve.Affine.Point.add_of_Y_eq rfl hneg]
            exact Rel.inf
      · obtain ⟨r, hr, hrel⟩ := chordAux_rel hx hy hrx hry hns hns'
          (fun hcon => hxe ((phi_eq_iff hx hrx).mp hcon))
        refine ⟨r, ?_, ?_⟩
        · rw [hstep, if_neg hxe]
          exact hr
        · exact hrel

/-- The double-and-add loop computes the Mathlib scalar multiple and never panics:
`mulLoop fuel coef current result` returns a point related to `coef • C + R`. -/
theorem mulLoop_bridge [Fact (Nat.Prime S256Field.prime)] :
    ∀ (fuel coef : Nat) (current result : S256Point) (C R : W.Point),
      coef < 2 ^ fuel → Rel current C → Rel result R →
      ∃ r, S256Point.mulLoop fuel coef current result = some r ∧
        Rel r (coef • C + R) := by
  intro fuel
  induction fuel with
  | zero =>
    intro coef current result C R hlt hc hr
    have hc0 : coef = 0 := by omega
    subst hc0
    refine ⟨result, rfl, ?_⟩
    rw [zero_nsmul, zero_add]
    exact hr
  | succ f ih =>
    intro coef current result C R hlt hc hr
    by_cases hc0 : coef = 0
    · subst hc0
      refine ⟨result, ?_, ?_⟩
      · rw [S256Point.mulLoop, if_pos rfl]
      · rw [zero_nsmul, zero_add]
        exact hr
    · obtain ⟨c', hc', hrelc⟩ := add_bridge hc hc
      have hdiv : coef / 2 < 2 ^ f := by
        rw [pow_succ] at hlt
        omega
      by_cases hpar : coef % 2 = 1
      · obtain ⟨r', hr', hrelr⟩ := add_bridge hr hc
        obtain ⟨r'', hr'', hrelr''⟩ := ih (coef / 2) c' r' (C + C) (R + C) hdiv hrelc hrelr
        refine ⟨r'', ?_, ?_⟩
        · rw [S256Point.mulLoop, if_neg hc0, if_pos hpar]
          simp only [Option.bind_eq_bind, hr', Option.some_bind, hc']
          exact hr''
        · have harith : (coef / 2) • (C + C) + (R + C) = coef • C + R := by
            rw [nsmul_add, ← add_nsmul]
            have hce : coef / 2 + coef / 2 + 1 = coef := by omega
            calc (coef / 2 + coef / 2) • C + (R + C)
                = (coef / 2 + coef / 2 + 1) • C + R := by
                  rw [succ_nsmul]
                  abel
              _ = coef • C + R := by rw [hce]
          rw [← harith]
          exact hrelr''
      · obtain ⟨r'', hr'', hrelr''⟩ := ih (coef / 2) c' result (C + C) R hdiv hrelc hr
        refine ⟨r'', ?_, ?_⟩
        · rw [S256Point.mulLoop, if_neg hc0, if_neg hpar]
          simp only [Option.bind_eq_bind, Option.some_bind, hc']
          exact hr''
        · have harith : (coef / 2) • (C + C) + R = coef • C + R := by
            rw [nsmul_add, ← add_nsmul]
            have hce : coef / 2 + coef / 2 = coef := by omega
            rw [hce]
          rw [← harith]
          exact hrelr''

/-- Shows `impl Mul for S256Point` computes the Mathlib scalar multiple of the reduced
coefficient and never panics on a valid point. -/
theorem mul_bridge [Fact (Nat.Prime S256Field.prime)] {p : S256Point} {P : W.Point}
    (h : Rel p P) (k : Nat) :
    ∃ r, S256Point.mul p k = some r ∧ Rel r ((k % S256Point.n) • P) := by
  have hlt : k % S256Point.n < 2 ^ 256 := by
    have h1 : k % S256Point.n < S256Point.n := Nat.mod_lt _ S256Point.n_pos
    have h2 : S256Point.n < 2 ^ 256 := by decide
    omega
  obtain ⟨r, hr, hrel⟩ := mulLoop_bridge 256 (k % S256Point.n) p S256Point.inf P 0
    hlt h Rel.inf
  refine ⟨r, hr, ?_⟩
  rw [add_zero] at hrel
  exact hrel

theorem rel_inf_inv {Q : W.Point} (h : Rel S256Point.infPoint Q) : Q = 0 := by
  cases h
  rfl

theorem rel_normal_inv {x y : S256Field} {Q : W.Point}
    (h : Rel (S256Point.normalPoint x y) Q) :
    ∃ hns : W.Nonsingular (φ x) (φ y), Q = WeierstrassCurve.Affine.Point.some hns := by
  cases h with
  | affine hx hy hns => exact ⟨hns, rfl⟩

set_option maxRecDepth 100000 in
/-- The generator construction succeeds (the curve-membership check passes). -/
theorem gen_point_eq :
    S256Point.gen_point = some (S256Point.normalPoint (S256Field.new S256Point.gx)
      (S256Field.new S256Point.gy)) := by decide

theorem gen_nonsingular [Fact (Nat.Prime S256Field.prime)] :
    W.Nonsingular (φ (S256Field.new S256Point.gx)) (φ (S256Field.new S256Point.gy)) :=
  W_nonsingular_of_equation Fact.out ((W_equation_iff _ _).mpr (new_inv gen_point_eq).2)

set_option maxRecDepth 10000000 in
set_option maxHeartbeats 80000000 in
/-- The kernel-computed value of `(n - 1) · G`: the negation of `G`. -/
theorem n_sub_one_mul_gen :
    S256Point.mul (S256Point.normalPoint (S256Field.new S256Point.gx)
      (S256Field.new S256Point.gy)) (S256Point.n - 1) =
    some (S256Point.normalPoint (S256Field.new S256Point.gx) (S256Field.new
      83121579216557378445487899878180864668798711284981320763518679672151497189239)) := by
  decide

/-- Shows that `G` generates a subgroup of order exactly `n`: no scalar in `(0, n)` reaches the
point at infinity, and the code's scalar multiplication never panics on `G`. -/
theorem mul_gen_affine [Fact (Nat.Prime S256Field.prime)] :
    ∀ k : Nat, 0 < k → k < S256Point.n →
      ∃ x y, S256Point.mul (S256Point.normalPoint (S256Field.new S256Point.gx)
        (S256Field.new S256Point.gy)) k = some (S256Point.normalPoint x y) := by
  have hns := gen_nonsingular
  have hrelG : Rel (S256Point.normalPoint (S256Field.new S256Point.gx)
      (S256Field.new S256Point.gy)) (WeierstrassCurve.Affine.Point.some hns) :=
    Rel.affine (by decide) (by decide) hns
  obtain ⟨r, hr, hrel⟩ := mul_bridge hrelG (S256Point.n - 1)
  rw [n_sub_one_mul_gen] at hr
  cases hr
  have hmod : (S256Point.n - 1) % S256Point.n = S256Point.n - 1 := by decide
  rw [hmod] at hrel
  obtain ⟨hns2, heq2⟩ := rel_normal_inv hrel
  have hneg : (S256Point.n - 1) • (WeierstrassCurve.Affine.Point.some hns) =
      - (WeierstrassCurve.Affine.Point.some hns) := by
    rw [heq2, WeierstrassCurve.Affine.Point.neg_some]
  have hzero : S256Point.n • (WeierstrassCurve.Affine.Point.some hns) = 0 := by
    have hsucc : S256Point.n = (S256Point.n - 1) + 1 := by
      have := S256Point.n_pos
      omega
    rw [hsucc, succ_nsmul, hneg, neg_add_cancel]
  have hord : addOrderOf (WeierstrassCurve.Affine.Point.some hns) = S256Point.n := by
    have hdvd : addOrderOf (WeierstrassCurve.Affine.Point.some hns) ∣ S256Point.n :=
      addOrderOf_dvd_of_nsmul_eq_zero hzero
    rcases (n_prime).eq_one_or_self_of_dvd _ hdvd with h1 | h1
    · exact absurd (AddMonoid.addOrderOf_eq_one_iff.mp h1)
        (WeierstrassCurve.Affine.Point.some_ne_zero hns)
    · exact h1
  intro k hk0 hkn
  obtain ⟨r, hrk, hrelk⟩ := mul_bridge hrelG k
  rw [Nat.mod_eq_of_lt hkn] at hrelk
  cases hrk' : r with
  | infPoint =>
    exfalso
    rw [hrk'] at hrelk
    have h0 : k • (WeierstrassCurve.Affine.Point.some hns) = 0 := rel_inf_inv hrelk
    have hdvdk : addOrderOf (WeierstrassCurve.Affine.Point.some hns) ∣ k :=
      addOrderOf_dvd_of_nsmul_eq_zero h0
    rw [hord] at hdvdk
    have := Nat.le_of_dvd hk0 hdvdk
    omega
  | normalPoint x y =>
    rw [hrk'] at hrk
    exact ⟨x, y, hrk⟩

/-! ## Claim theorems -/

/-- Claim C10 (confirmed). SEC serialization is defined only for affine points: `sec` and
`compressed_sec` panic (`none`: the `unwrap` of `coordinate()`) exactly when the
receiver is the point at infinity, and return an encoding on every affine point. -/
theorem sec_panics_iff_inf (p : BitcoinReuni.S256Point) :
    (p.sec = none ↔ p.is_inf = true) ∧ (p.compressed_sec = none ↔ p.is_inf = true) := by
  cases p <;>
    simp [S256Point.sec, S256Point.compressed_sec, S256Point.coordinate, S256Point.is_inf]

/-- Claim C8 counterexample. `S256Field::new` performs no reduction: the value built
from `prime` itself violates the representative invariant `num < prime`. -/
theorem s256field_new_breaks_invariant :
    ¬ (BitcoinReuni.S256Field.new S256Field.prime).num < S256Field.prime :=
  Nat.lt_irrefl _

/-- Claim C8 (amended). Every arithmetic operation of `S256Field` (`add`, `sub`, `mul`,
`div`, `pow`) returns a representative with `num < prime`, for arbitrary operands; the
constructor `new`, however, stores its argument unreduced, so the invariant holds at
construction only when the argument is already below `prime`. -/
theorem s256field_ops_establish_invariant :
    (∀ a b : BitcoinReuni.S256Field,
      (a.add b).num < S256Field.prime ∧ (a.sub b).num < S256Field.prime ∧
      (a.mul b).num < S256Field.prime ∧ (a.div b).num < S256Field.prime) ∧
    (∀ (a : BitcoinReuni.S256Field) (e : Int), (a.pow e).num < S256Field.prime) ∧
    (∀ v : Nat, (BitcoinReuni.S256Field.new v).num = v) := by
  exact ⟨fun a b => ⟨S256Field.add_num_lt a b, S256Field.sub_num_lt a b,
    S256Field.mul_num_lt a b, S256Field.div_num_lt a b⟩,
    fun a e => S256Field.pow_num_lt a e, fun v => rfl⟩

set_option maxRecDepth 100000 in
/-- Claim C2 (code bug). The DER encoder's byte loop drops **every** zero byte, not only
leading ones, so the round trip fails on any component with an interior zero byte:
`r = 256 = 0x0100` serializes to the same bytes as `r = 1`, and decoding returns
`(1, 1)` instead of `(256, 1)`. -/
theorem der_roundtrip_drops_interior_zero :
    (BitcoinReuni.Signature.der ⟨256, 1⟩).bind Signature.parse_der =
        some ⟨1, 1⟩ ∧
      (⟨1, 1⟩ : BitcoinReuni.Signature) ≠ ⟨256, 1⟩ := by
  constructor
  · decide
  · decide

set_option maxRecDepth 100000 in
/-- Claim C7 counterexample. `parse_sec` on a 32-byte input fails the
`assert!(sec_bytes.len() >= 33)` and panics (`none`); no typed decode error is
returned to the caller (the function's return type has no error variant). -/
theorem parse_sec_short_input_panics :
    BitcoinReuni.S256Point.parse_sec (List.replicate 32 0) = none := by decide

/-- Claim C7 (amended). Malformed input makes the parsers panic rather than return a
typed error: `parse_sec` panics (assertion failure) on every input shorter than 33
bytes, and `parse_der` panics on every input that does not start with the byte `0x30`
(missing or wrong tag); out-of-bounds reads are prevented only by the panics of the
slice bounds checks. -/
theorem parse_malformed_panics :
    (∀ bs : List Nat, bs.length < 33 → BitcoinReuni.S256Point.parse_sec bs = none) ∧
    (∀ bs : List Nat, bs.get? 0 ≠ some 0x30 → BitcoinReuni.Signature.parse_der bs = none) := by
  constructor
  · intro bs h
    rw [S256Point.parse_sec, if_pos h]
  · intro bs h
    rw [Signature.parse_der]
    cases h0 : bs.get? 0 with
    | none => rfl
    | some b0 =>
      have hb : b0 ≠ 0x30 := fun he => h (by rw [h0, he])
      simp [Option.bind, hb]

/-- Claim C7 witness for `parse_malformed_panics`, at the inputs `[0; 32]` and `[2]`. -/
theorem parse_malformed_panics_witness :
    BitcoinReuni.S256Point.parse_sec (List.replicate 32 1) = none ∧
      BitcoinReuni.Signature.parse_der [2] = none :=
  ⟨parse_malformed_panics.1 _ (by decide), parse_malformed_panics.2 _ (by decide)⟩

set_option maxRecDepth 1000000 in
set_option maxHeartbeats 2000000 in
/-- Claim C3 counterexample. `verify` with the generator as public point, `z = 0` and the
out-of-range signature `(r, s) = (1, 0)` panics (`none`: the `unwrap` of
`t.coordinate()` at the point at infinity) instead of returning `false`: `s = 0` gives
`s_inv = 0`, hence `u = v = 0` and `T = 0·G + 0·P = Infinity`. -/
theorem verify_zero_s_panics :
    BitcoinReuni.S256Point.verify
        (S256Point.normalPoint (S256Field.new S256Point.gx) (S256Field.new S256Point.gy))
        0 ⟨1, 0⟩ = none := by decide

/-- Claim C3 (amended). `verify` performs no range check on `r` or `s`; whenever the
computed `T = u·G + v·publicPoint` is the point at infinity (as happens for `s ≡ 0`),
it panics on the `unwrap` of `T`'s coordinates — `none` — rather than returning the
boolean `false`. -/
theorem verify_panics_at_infinity (pt : BitcoinReuni.S256Point) (z : Nat)
    (sig : BitcoinReuni.Signature)
    (h : S256Point.verify_t pt z sig = some S256Point.inf) :
    S256Point.verify pt z sig = none := by
  rw [S256Point.verify, h]
  rfl

set_option maxRecDepth 1000000 in
set_option maxHeartbeats 2000000 in
/-- Claim C3 witness for `verify_panics_at_infinity`, at the concrete input of the
counterexample. -/
theorem verify_panics_at_infinity_witness :
    BitcoinReuni.S256Point.verify
        (S256Point.normalPoint (S256Field.new S256Point.gx) (S256Field.new S256Point.gy))
        5 ⟨2, 0⟩ = none :=
  verify_panics_at_infinity _ _ _ (by decide)

/-- Claim C4 (confirmed). Signing is deterministic: the result of `sign` does not depend
on the random stream behind `U256::from_random`, because `deterministic_k` only returns
nonces in `[1, n)` and the `while k > n` resampling guard is therefore never taken; two
calls with the same secret, message and HMAC function return identical signatures. -/
theorem sign_deterministic (hmac : List Nat → List Nat → List Nat)
    (rand₁ rand₂ : Nat → Nat) (pk : BitcoinReuni.PrivateKey) (z fuelK fuelW : Nat) :
    PrivateKey.sign hmac rand₁ pk z fuelK fuelW =
      PrivateKey.sign hmac rand₂ pk z fuelK fuelW := by
  rw [PrivateKey.sign, PrivateKey.sign]
  cases hk : PrivateKey.deterministic_k hmac pk z fuelK with
  | none => simp only [hk, Option.bind_eq_bind, Option.none_bind]
  | some k0 =>
    have hmem := PrivateKey.deterministic_k_mem hmac pk z fuelK k0 hk
    have hng : ¬ k0 > S256Point.n := by omega
    cases fuelW with
    | zero =>
      simp only [hk, Option.bind_eq_bind, Option.some_bind, PrivateKey.whileRandom,
        Option.none_bind]
    | succ f =>
      simp only [hk, Option.bind_eq_bind, Option.some_bind,
        PrivateKey.whileRandom_of_not_gt rand₁ k0 0 (f + 1) hng (by omega),
        PrivateKey.whileRandom_of_not_gt rand₂ k0 0 (f + 1) hng (by omega)]

/-- Claim C5 (confirmed). Every signature returned by `sign` is low-S: after the
normalization `if s > n/2 { s = n - s }`, the `s` component is at most `n / 2`. -/
theorem sign_low_s (hmac : List Nat → List Nat → List Nat) (rand : Nat → Nat)
    (pk : BitcoinReuni.PrivateKey) (z fuelK fuelW : Nat) (sig : BitcoinReuni.Signature)
    (h : PrivateKey.sign hmac rand pk z fuelK fuelW = some sig) :
    sig.s ≤ S256Point.n / 2 := by
  rw [PrivateKey.sign] at h
  simp only [Option.bind_eq_bind, Option.bind_eq_some, Option.pure_def,
    Option.some.injEq] at h
  obtain ⟨k0, -, k, -, g, -, kg, -, c, -, hsig⟩ := h
  have hs0 : (z + c.1 * pk.secret) * u256_modpow k (S256Point.n - 2) S256Point.n %
      S256Point.n < S256Point.n := Nat.mod_lt _ S256Point.n_pos
  subst hsig
  simp only
  split <;> omega

set_option maxRecDepth 1000000 in
set_option maxHeartbeats 4000000 in
/-- Claim C5 witness for `sign_low_s`: with the (abstract) HMAC instantiated by a
function returning the 32-byte string `0x00…01`, the nonce candidate is `1` and
signing `z = 0` under `secret = 1` returns the concrete signature `(gx, gx)`, whose
`s` is at most `n / 2`. -/
theorem sign_low_s_witness :
    PrivateKey.sign (fun _ _ => List.replicate 31 0 ++ [1]) (fun _ => 0)
        ⟨1, S256Point.normalPoint (S256Field.new S256Point.gx) (S256Field.new S256Point.gy)⟩
        0 1 1 = some ⟨S256Point.gx, S256Point.gx⟩ ∧
      (⟨S256Point.gx, S256Point.gx⟩ : BitcoinReuni.Signature).s ≤ S256Point.n / 2 :=
  ⟨by decide,
    sign_low_s (fun _ _ => List.replicate 31 0 ++ [1]) (fun _ => 0)
      ⟨1, S256Point.normalPoint (S256Field.new S256Point.gx) (S256Field.new S256Point.gy)⟩
      0 1 1 ⟨S256Point.gx, S256Point.gx⟩ (by decide)⟩

/-- Claim C6 (confirmed). SEC round trip: for every valid affine point — a point `p`
produced by `S256Point::new` from reduced coordinate representatives — parsing the
compressed SEC encoding and parsing the uncompressed SEC encoding both recover `p`;
in particular the decompression square root `β = α^((p+1)/4) mod p` with parity
selection between `β` and `p - β` recovers the original `y` coordinate. -/
theorem sec_roundtrip (x y : S256Field)
    (hx : x.num < S256Field.prime) (hy : y.num < S256Field.prime) (p : S256Point)
    (hnew : S256Point.new x y = some p) :
    p.compressed_sec.bind S256Point.parse_sec = some p ∧
      p.sec.bind S256Point.parse_sec = some p :=
  sec_roundtrip_aux p_prime x y hx hy p hnew

set_option maxRecDepth 1000000 in
/-- Claim C6 witness: the round trip instantiated at the generator `G`. -/
theorem sec_roundtrip_witness :
    (S256Field.new S256Point.gx).num < S256Field.prime ∧
    (S256Field.new S256Point.gy).num < S256Field.prime ∧
    S256Point.new (S256Field.new S256Point.gx) (S256Field.new S256Point.gy) =
      some (S256Point.normalPoint (S256Field.new S256Point.gx)
        (S256Field.new S256Point.gy)) ∧
    ((S256Point.normalPoint (S256Field.new S256Point.gx)
        (S256Field.new S256Point.gy)).compressed_sec.bind S256Point.parse_sec =
      some (S256Point.normalPoint (S256Field.new S256Point.gx)
        (S256Field.new S256Point.gy)) ∧
      (S256Point.normalPoint (S256Field.new S256Point.gx)
        (S256Field.new S256Point.gy)).sec.bind S256Point.parse_sec =
      some (S256Point.normalPoint (S256Field.new S256Point.gx)
        (S256Field.new S256Point.gy))) :=
  ⟨by decide, by decide, gen_point_eq,
    sec_roundtrip (S256Field.new S256Point.gx) (S256Field.new S256Point.gy)
      (by decide) (by decide)
      (S256Point.normalPoint (S256Field.new S256Point.gx) (S256Field.new S256Point.gy))
      gen_point_eq⟩

/-- Claim C9 (confirmed). Group identity: for the generator `G` built by
`S256Point::gen_point` and the order `n`, the code's scalar multiplication gives
`n · G = Infinity` (the scalar is reduced `mod n` before the double-and-add loop), and
for every `k` with `0 < k < n`, `k · G` is an affine (non-infinity) point. -/
theorem gen_point_group_order (g : S256Point)
    (hg : S256Point.gen_point = some g) :
    S256Point.mul g S256Point.n = some S256Point.inf ∧
      ∀ k : Nat, 0 < k → k < S256Point.n →
        ∃ x y, S256Point.mul g k = some (S256Point.normalPoint x y) := by
  haveI : Fact (Nat.Prime S256Field.prime) := ⟨p_prime⟩
  rw [gen_point_eq, Option.some.injEq] at hg
  subst hg
  exact ⟨rfl, mul_gen_affine⟩

/-- Claim C9 witness: the generator construction succeeds and `1 · G` is affine. -/
theorem gen_point_group_order_witness :
    S256Point.gen_point = some (S256Point.normalPoint (S256Field.new S256Point.gx)
      (S256Field.new S256Point.gy)) ∧
    (1 : Nat) < S256Point.n ∧
    ∃ x y, S256Point.mul (S256Point.normalPoint (S256Field.new S256Point.gx)
      (S256Field.new S256Point.gy)) 1 = some (S256Point.normalPoint x y) :=
  ⟨gen_point_eq, by decide,
    (gen_point_group_order (S256Point.normalPoint (S256Field.new S256Point.gx)
      (S256Field.new S256Point.gy)) gen_point_eq).2 1 (by decide) (by decide)⟩

end BitcoinReuni
